import Mathlib

/-!
Shallow embedding of the offline-first synchronization core of
gsjenks/cataloglistpro (services/SyncService.ts, services/PhotoService.ts,
services/Offlinestorage.ts and the optimized SyncService variant) together
with proofs about the specified properties.

Local IndexedDB object stores keyed by `id` are modelled as association
lists together with a `putKeyed` operation mirroring `db.put` (replace the
row with the same key in place, or append the row at the end).
-/

namespace CatalogListPro

/-- The `db.put` operation of an IndexedDB object store with `keyPath: 'id'`:
replace the first row carrying the same key in place, or append the row. -/
def putKeyed {α : Type} (key : α → String) (row : α) : List α → List α
  | [] => [row]
  | x :: xs => if key x = key row then row :: xs else x :: putKeyed key row xs

/-- The `db.get` operation: first row with the given key, if any. -/
def lookupKeyed {α : Type} (key : α → String) (k : String) : List α → Option α
  | [] => none
  | x :: xs => if key x = k then some x else lookupKeyed key k xs

/-- A sequence of `db.put` calls, one per row, in order. -/
def upsertAll {α : Type} (key : α → String) (rows : List α) (l : List α) : List α :=
  rows.foldl (fun acc r => putKeyed key r acc) l

end CatalogListPro

namespace CatalogListPro

/-! ## Data model

Entity rows as held in the local IndexedDB object stores (Offlinestorage).
The exact entity record types live in `../types`, which is not part of the
sources here; the fields modelled are the ones the synchronization core
reads or writes. Blob payloads are modelled as natural numbers. -/

structure Company where
  id : String
  name : String
  status : String
  deriving DecidableEq, Repr

structure Sale where
  id : String
  company_id : String
  status : String
  start_date : Nat
  deriving DecidableEq, Repr

structure Lot where
  id : String
  sale_id : String
  lot_number : Nat
  deriving DecidableEq, Repr

structure Photo where
  id : String
  lot_id : String
  file_path : String
  is_primary : Bool
  synced : Bool
  updated_at : Nat
  deriving DecidableEq, Repr

structure Contact where
  id : String
  company_id : String
  sale_id : Option String
  deriving DecidableEq, Repr

structure Document where
  id : String
  company_id : String
  sale_id : Option String
  deriving DecidableEq, Repr

/-- A record of the `photoBlobs` store: `{ id, blob }`. -/
structure PhotoBlobRow where
  id : String
  blob : Nat
  deriving DecidableEq, Repr

inductive MutationType
  | create
  | update
  | delete
  deriving DecidableEq, Repr

/-- A record of the `pendingSync` store (Offlinestorage `PendingSyncItem`). -/
structure PendingSyncItem where
  id : String
  type : MutationType
  table : String
  data : String
  timestamp : Nat
  synced : Bool
  deriving DecidableEq, Repr

/-- A record of the `conflicts` store (Offlinestorage `ConflictItem`). -/
structure ConflictItem where
  id : String
  table : String
  localData : String
  cloudData : String
  timestamp : Nat
  resolved : Bool
  deriving DecidableEq, Repr

/-- The local durable store: the IndexedDB object stores of Offlinestorage.
`lastSyncTime` stands for the `metadata` row with key `lastSyncTime`. -/
structure OfflineStore where
  companies : List Company
  sales : List Sale
  lots : List Lot
  photos : List Photo
  contacts : List Contact
  documents : List Document
  photoBlobs : List PhotoBlobRow
  pendingSync : List PendingSyncItem
  conflicts : List ConflictItem
  lastSyncTime : Option Nat
  deriving DecidableEq, Repr

/-- A remote photo row (`photos` table) as returned by `select('*')`; the
local `synced` flag does not exist remotely and is attached on upsert. -/
structure RemotePhoto where
  id : String
  lot_id : String
  file_path : String
  is_primary : Bool
  updated_at : Nat
  deriving DecidableEq, Repr

/-- The remote backend (Supabase tables plus the `photos` storage bucket),
together with error-injection flags: each flag makes the corresponding
`select` return an error, and `downloadFails` lists the storage paths whose
`download` call rejects. -/
structure Remote where
  companies : List Company
  sales : List Sale
  lots : List Lot
  photos : List RemotePhoto
  contacts : List Contact
  documents : List Document
  storage : List (String × Nat)
  companyFetchFails : Bool
  salesFetchFails : Bool
  lotsFetchFails : Bool
  companyContactsFetchFails : Bool
  saleContactsFetchFails : Bool
  primaryPhotosFetchFails : Bool
  companyDocumentsFetchFails : Bool
  saleDocumentsFetchFails : Bool
  remainingPhotosFetchFails : Bool
  downloadFails : List String
  deriving Repr

/-- The `supabase.storage.from('photos').download(path)` call: `none` when
the path is flagged to fail or the bucket has no object at that path. -/
def storageDownload (r : Remote) (path : String) : Option Nat :=
  if path ∈ r.downloadFails then none
  else (r.storage.find? (fun e => e.1 == path)).map (·.2)

/-! ## SyncService: the seven-stage pull (`performInitialSync`)

Embeds `services/SyncService.ts`. Each stage function commits its writes to
the store; stages 1-3 can throw (modelled as `Except Unit`), stages 4-7
ignore or swallow their fetch errors as the source does. -/

/-- The `{ stage, current, total }` tuple broadcast by `notifyProgress`. -/
structure Progress where
  stage : String
  current : Nat
  total : Nat
  deriving DecidableEq, Repr

def pr (stage : String) (current : Nat) : Progress := ⟨stage, current, 7⟩

/-- STEP 1 (`syncCompany`): fetch the company by id with `.single()` (which
errors when the fetch fails or no row matches) and upsert it. -/
def syncCompany (r : Remote) (companyId : String) (s : OfflineStore) :
    Except Unit (OfflineStore × Company) :=
  if r.companyFetchFails then .error ()
  else match r.companies.find? (fun c => c.id == companyId) with
    | none => .error ()
    | some c => .ok ({ s with companies := putKeyed Company.id c s.companies }, c)

/-- Stable insertion used to model the backend's `.order(...)` clause
(structurally recursive, so concrete runs reduce in the kernel). -/
def insertSorted {α : Type} (le : α → α → Bool) (x : α) : List α → List α
  | [] => [x]
  | y :: ys => if le x y then x :: y :: ys else y :: insertSorted le x ys

/-- Stable sort by `le`, modelling the `.order(...)` clause of a fetch. -/
def sortRows {α : Type} (le : α → α → Bool) (l : List α) : List α :=
  l.foldr (insertSorted le) []

/-- The rows fetched by stage 2: sales of the company with status in
`upcoming`/`active`, ordered by `start_date` descending. -/
def activeSaleRows (r : Remote) (companyId : String) : List Sale :=
  sortRows (fun a b => decide (b.start_date ≤ a.start_date))
    (r.sales.filter (fun sl =>
      sl.company_id == companyId && (sl.status == "upcoming" || sl.status == "active")))

/-- STEP 2 (`syncActiveSales`): fetch the active sales and upsert each. -/
def syncActiveSales (r : Remote) (companyId : String) (s : OfflineStore) :
    Except Unit (OfflineStore × List Sale) :=
  if r.salesFetchFails then .error ()
  else
    let sales := activeSaleRows r companyId
    .ok ({ s with sales := upsertAll Sale.id sales s.sales }, sales)

/-- The rows fetched by stage 3: lots whose `sale_id` is among the active
sales, ordered by `lot_number` ascending. -/
def lotRowsFor (r : Remote) (activeSales : List Sale) : List Lot :=
  sortRows (fun a b => decide (a.lot_number ≤ b.lot_number))
    (r.lots.filter (fun l => (activeSales.map Sale.id).contains l.sale_id))

/-- STEP 3 (`syncLots`): fetch the lots of the active sales and upsert each.
Returns early (without any fetch) when there are no active sales. -/
def syncLots (r : Remote) (activeSales : List Sale) (s : OfflineStore) :
    Except Unit (OfflineStore × List Lot) :=
  if activeSales.isEmpty then .ok (s, [])
  else if r.lotsFetchFails then .error ()
  else
    let lots := lotRowsFor r activeSales
    .ok ({ s with lots := upsertAll Lot.id lots s.lots }, lots)

/-- STEP 4 (`syncContacts`): company-scoped contacts (`sale_id` null) and
active-sale contacts; the source destructures only `data`, so a fetch error
simply yields no rows and never throws. -/
def companyContactRows (r : Remote) (companyId : String) : List Contact :=
  r.contacts.filter (fun c => c.company_id == companyId && c.sale_id.isNone)

def saleContactRows (r : Remote) (activeSales : List Sale) : List Contact :=
  r.contacts.filter (fun c =>
    match c.sale_id with
    | some sid => (activeSales.map Sale.id).contains sid
    | none => false)

def syncContacts (r : Remote) (companyId : String) (activeSales : List Sale)
    (s : OfflineStore) : OfflineStore :=
  let s1 :=
    if r.companyContactsFetchFails then s
    else { s with contacts :=
            upsertAll Contact.id (companyContactRows r companyId) s.contacts }
  if activeSales.isEmpty then s1
  else if r.saleContactsFetchFails then s1
  else { s1 with contacts :=
          upsertAll Contact.id (saleContactRows r activeSales) s1.contacts }

/-- Attach the local `synced` flag to a pulled photo row. -/
def photoOfRemote (p : RemotePhoto) (syncedFlag : Bool) : Photo :=
  { id := p.id, lot_id := p.lot_id, file_path := p.file_path,
    is_primary := p.is_primary, synced := syncedFlag, updated_at := p.updated_at }

/-- One pulled photo in stages 5/7: upsert the metadata with `synced: false`;
then, when no blob is cached, download it and on success store the blob and
re-upsert the metadata with `synced: true`. Download failures are caught. -/
def syncPhotoOne (r : Remote) (p : RemotePhoto) (s : OfflineStore) : OfflineStore :=
  let s1 := { s with photos := putKeyed Photo.id (photoOfRemote p false) s.photos }
  match lookupKeyed PhotoBlobRow.id p.id s1.photoBlobs with
  | some _ => s1
  | none =>
    match storageDownload r p.file_path with
    | some bytes =>
      { s1 with
        photoBlobs := putKeyed PhotoBlobRow.id ⟨p.id, bytes⟩ s1.photoBlobs,
        photos := putKeyed Photo.id (photoOfRemote p true) s1.photos }
    | none => s1

/-- The remote fetch of stage 5: photos of the pulled lots with
`is_primary = true`. -/
def primaryPhotoRows (r : Remote) (lots : List Lot) : List RemotePhoto :=
  let lotIds := lots.map Lot.id
  r.photos.filter (fun p => lotIds.contains p.lot_id && p.is_primary)

/-- The remote fetch of stage 7: photos of the pulled lots with
`is_primary = false`. -/
def remainingPhotoRows (r : Remote) (lots : List Lot) : List RemotePhoto :=
  let lotIds := lots.map Lot.id
  r.photos.filter (fun p => lotIds.contains p.lot_id && !p.is_primary)

/-- STEP 5 (`syncPrimaryImages`): a fetch error is logged and swallowed
(the function just returns), otherwise each photo is processed in order. -/
def photoSync (r : Remote) (ps : List RemotePhoto) (s : OfflineStore) : OfflineStore :=
  ps.foldl (fun acc p => syncPhotoOne r p acc) s

def syncPrimaryImages (r : Remote) (lots : List Lot) (s : OfflineStore) : OfflineStore :=
  if lots.isEmpty then s
  else if r.primaryPhotosFetchFails then s
  else photoSync r (primaryPhotoRows r lots) s

/-- STEP 6 (`syncDocuments`): same dual-scope pattern as contacts; fetch
errors are ignored. -/
def companyDocumentRows (r : Remote) (companyId : String) : List Document :=
  r.documents.filter (fun d => d.company_id == companyId && d.sale_id.isNone)

def saleDocumentRows (r : Remote) (activeSales : List Sale) : List Document :=
  r.documents.filter (fun d =>
    match d.sale_id with
    | some sid => (activeSales.map Sale.id).contains sid
    | none => false)

def syncDocuments (r : Remote) (companyId : String) (activeSales : List Sale)
    (s : OfflineStore) : OfflineStore :=
  let s1 :=
    if r.companyDocumentsFetchFails then s
    else { s with documents :=
            upsertAll Document.id (companyDocumentRows r companyId) s.documents }
  if activeSales.isEmpty then s1
  else if r.saleDocumentsFetchFails then s1
  else { s1 with documents :=
          upsertAll Document.id (saleDocumentRows r activeSales) s1.documents }

/-- STEP 7 (`syncRemainingImages`): like stage 5 with `is_primary = false`;
a fetch error is logged and swallowed. -/
def syncRemainingImages (r : Remote) (lots : List Lot) (s : OfflineStore) : OfflineStore :=
  if lots.isEmpty then s
  else if r.remainingPhotosFetchFails then s
  else photoSync r (remainingPhotoRows r lots) s

def setLastSyncTime (now : Nat) (s : OfflineStore) : OfflineStore :=
  { s with lastSyncTime := some now }

/-- The observable outcome of one `performInitialSync` call: the store it
leaves behind, the sequence of `notifyProgress` broadcasts, and whether the
call re-threw an error to its caller. -/
structure SyncRun where
  store : OfflineStore
  progress : List Progress
  threw : Bool
  deriving DecidableEq, Repr

/-- `performInitialSync(companyId)`. `busy` mirrors the entry guard
`isSyncing && activeOperations > 0` (an overlapping call returns at once).
Stages 1-3 throw on a fetch error: the catch block broadcasts the `Error`
progress and re-throws. Stages 4-7 never throw. On full success
`lastSyncTime` is recorded and `Complete` is broadcast. The
`if (!company)` early return after stage 1 is unreachable because
`.single()` already errors when no row matches. -/
def performInitialSync (busy : Bool) (r : Remote) (companyId : String) (now : Nat)
    (s : OfflineStore) : SyncRun :=
  if busy then ⟨s, [], false⟩
  else
    match syncCompany r companyId s with
    | .error _ => ⟨s, [pr "Syncing company" 1, pr "Error" 0], true⟩
    | .ok (s1, _company) =>
      match syncActiveSales r companyId s1 with
      | .error _ =>
        ⟨s1, [pr "Syncing company" 1, pr "Syncing sales" 2, pr "Error" 0], true⟩
      | .ok (s2, activeSales) =>
        match syncLots r activeSales s2 with
        | .error _ =>
          ⟨s2, [pr "Syncing company" 1, pr "Syncing sales" 2, pr "Syncing lots" 3,
                pr "Error" 0], true⟩
        | .ok (s3, lots) =>
          let s4 := syncContacts r companyId activeSales s3
          let s5 := syncPrimaryImages r lots s4
          let s6 := syncDocuments r companyId activeSales s5
          let s7 := syncRemainingImages r lots s6
          ⟨setLastSyncTime now s7,
           [pr "Syncing company" 1, pr "Syncing sales" 2, pr "Syncing lots" 3,
            pr "Syncing contacts" 4, pr "Syncing primary images" 5,
            pr "Syncing documents" 6, pr "Syncing remaining images" 7,
            pr "Complete" 7], false⟩

/-! ## SyncService: the push phase (`pushLocalChanges`) -/

/-- The outcome of one remote entity-apply call (`supabase.from(t).upsert`):
a success, a returned error object, or a thrown exception. -/
inductive PushRes
  | okRes
  | errRes
  | exn
  deriving DecidableEq, Repr

/-- A remote write issued by the push phase (observable side channel). -/
inductive RemoteOp
  | upsertRow (table : String) (data : String)
  | deleteRow (table : String) (id : String)
  | uploadBlob (path : String) (bytes : Nat)
  | upsertPhotoMeta (photo : Photo)
  deriving DecidableEq, Repr

/-- Offlinestorage `getPendingSyncItems`: reads the whole `by-synced` index
with no key filter, so every record of the `pendingSync` store is listed. -/
def getPendingSyncItems (s : OfflineStore) : List PendingSyncItem :=
  s.pendingSync

/-- Offlinestorage `markSynced`: get the item, set `synced = true`, put it
back; a missing id is a no-op. -/
def markSynced (itemId : String) (l : List PendingSyncItem) : List PendingSyncItem :=
  match lookupKeyed PendingSyncItem.id itemId l with
  | some item => putKeyed PendingSyncItem.id { item with synced := true } l
  | none => l

/-- Offlinestorage `getUnsyncedPhotos`: all photos with `synced` false. -/
def getUnsyncedPhotos (s : OfflineStore) : List Photo :=
  s.photos.filter (fun p => !p.synced)

/-- PhotoService `saveMetadataToSupabase`: remote-upsert the photo row
(oracle `metaOk` decides the outcome); on success mark the local row
`synced: true` and report true, else report false. -/
def saveMetadataToSupabase (metaOk : String → Bool) (photo : Photo) (s : OfflineStore) :
    OfflineStore × List RemoteOp × Bool :=
  if metaOk photo.id then
    ({ s with photos := putKeyed Photo.id { photo with synced := true } s.photos },
     [RemoteOp.upsertPhotoMeta photo], true)
  else (s, [RemoteOp.upsertPhotoMeta photo], false)

/-- The photo half of `pushLocalChanges`: for each unsynced photo whose blob
exists locally, upload the blob (the upload result is not inspected) and
save the metadata remotely. -/
def pushPhotoStep (metaOk : String → Bool) (st : OfflineStore × List RemoteOp)
    (photo : Photo) : OfflineStore × List RemoteOp :=
  let (acc, ops) := st
  match lookupKeyed PhotoBlobRow.id photo.id acc.photoBlobs with
  | some b =>
    let (acc', ops', _ok) := saveMetadataToSupabase metaOk photo acc
    (acc', ops ++ [RemoteOp.uploadBlob photo.file_path b.blob] ++ ops')
  | none => (acc, ops)

def pushUnsyncedPhotos (metaOk : String → Bool) (s : OfflineStore) :
    OfflineStore × List RemoteOp :=
  (getUnsyncedPhotos s).foldl (pushPhotoStep metaOk) (s, [])

/-- The pending-mutation half of `pushLocalChanges`: every listed item is
applied with `supabase.from(item.table).upsert(item.data)`; only a success
marks it synced; a returned error or a caught exception leaves it untouched. -/
def pushPendingStep (applyRes : String → PushRes) (st : OfflineStore × List RemoteOp)
    (item : PendingSyncItem) : OfflineStore × List RemoteOp :=
  let (acc, ops) := st
  let ops' := ops ++ [RemoteOp.upsertRow item.table item.data]
  match applyRes item.id with
  | .okRes => ({ acc with pendingSync := markSynced item.id acc.pendingSync }, ops')
  | _ => (acc, ops')

def pushPendingItems (applyRes : String → PushRes) (s : OfflineStore) :
    OfflineStore × List RemoteOp :=
  (getPendingSyncItems s).foldl (pushPendingStep applyRes) (s, [])

/-- `pushLocalChanges`: photos first, then the pending-mutation queue.
Returns the resulting store and the two remote-write logs. -/
def pushLocalChanges (metaOk : String → Bool) (applyRes : String → PushRes)
    (s : OfflineStore) : OfflineStore × List RemoteOp × List RemoteOp :=
  let (s1, photoOps) := pushUnsyncedPhotos metaOk s
  let (s2, pendingOps) := pushPendingItems applyRes s1
  (s2, photoOps, pendingOps)

end CatalogListPro

namespace CatalogListPro

/-! ## PhotoService: the photo access resolver (`getPhotoObjectUrl`)

Embeds `_getPhotoObjectUrlInternal` and the deduplication wrapper of
`services/PhotoService.ts`. The remote `createSignedUrl` call and the
background `fetch` of the signed URL are oracles (`none` = error). -/

/-- A displayable reference: either a `URL.createObjectURL` wrapper over the
local blob, or a signed remote URL. -/
inductive PhotoUrl
  | objectUrl (bytes : Nat)
  | signed (url : String)
  deriving DecidableEq, Repr

/-- The resolver's view of the world: the local store, the in-memory
`signedUrlCache` (photo id to url and expiry), connectivity and the clock. -/
structure ResolverState where
  store : OfflineStore
  signedUrlCache : List (String × String × Nat)
  online : Bool
  now : Nat
  deriving DecidableEq, Repr

/-- The observable outcome of one internal resolution: the returned value,
the state left behind, whether a remote signed-URL request was issued, and
whether a background blob download was scheduled. -/
structure ResolveOutcome where
  result : Option PhotoUrl
  state : ResolverState
  remoteRequested : Bool
  downloadScheduled : Bool
  deriving DecidableEq, Repr

/-- The signed-URL cache TTL: 55 minutes in milliseconds. -/
def signedUrlTTL : Nat := 55 * 60 * 1000

/-- The tail of `_getPhotoObjectUrlInternal` after the blob and cache checks
missed: look up local metadata for `file_path`, bail out when absent or
offline, otherwise request a signed URL, cache it with a 55-minute expiry
and schedule the best-effort background download of the bytes. -/
def resolveFromMetadata (csu : String → Option String) (dl : String → Option Nat)
    (photoId : String) (st : ResolverState) : ResolveOutcome :=
  match lookupKeyed Photo.id photoId st.store.photos with
  | none => ⟨none, st, false, false⟩
  | some photo =>
    if !st.online then ⟨none, st, false, false⟩
    else
      match csu photo.file_path with
      | none => ⟨none, st, true, false⟩
      | some url =>
        let cache' :=
          putKeyed (fun e => e.1) (photoId, url, st.now + signedUrlTTL) st.signedUrlCache
        let st1 := { st with signedUrlCache := cache' }
        let st2 :=
          match dl url with
          | some bytes =>
            let blobs' := putKeyed PhotoBlobRow.id ⟨photoId, bytes⟩ st1.store.photoBlobs
            { st1 with store := { st1.store with photoBlobs := blobs' } }
          | none => st1
        ⟨some (.signed url), st2, true, true⟩

/-- `_getPhotoObjectUrlInternal(photoId)`: local blob first, then the
unexpired signed-URL cache, then `resolveFromMetadata`. -/
def getPhotoObjectUrlInternal (csu : String → Option String) (dl : String → Option Nat)
    (photoId : String) (st : ResolverState) : ResolveOutcome :=
  match lookupKeyed PhotoBlobRow.id photoId st.store.photoBlobs with
  | some b => ⟨some (.objectUrl b.blob), st, false, false⟩
  | none =>
    match lookupKeyed (fun e => e.1) photoId st.signedUrlCache with
    | some entry =>
      if st.now < entry.2.2 then ⟨some (.signed entry.2.1), st, false, false⟩
      else resolveFromMetadata csu dl photoId st
    | none => resolveFromMetadata csu dl photoId st

/-- The `pendingRequests` deduplication state of PhotoService: the map of
in-flight promises (by photo id), the number of `_getPhotoObjectUrlInternal`
invocations so far, and a fresh-promise counter. -/
structure DedupState where
  pendingRequests : List (String × Nat)
  internalCalls : Nat
  nextPromise : Nat
  deriving DecidableEq, Repr

/-- The entry of `getPhotoObjectUrl(photoId)`: when a request for the same
id is already pending, return that promise unchanged; otherwise invoke the
internal resolver, record its promise in the map and return it. -/
def getPhotoObjectUrlEnter (photoId : String) (st : DedupState) : DedupState × Nat :=
  match lookupKeyed (fun e => e.1) photoId st.pendingRequests with
  | some e => (st, e.2)
  | none =>
    ({ pendingRequests :=
         putKeyed (fun e => e.1) (photoId, st.nextPromise) st.pendingRequests,
       internalCalls := st.internalCalls + 1,
       nextPromise := st.nextPromise + 1 },
     st.nextPromise)

/-- The `finally` of `getPhotoObjectUrl`: once the shared promise settles,
with any outcome (a resolution or a rejection), its map entry is deleted. -/
def getPhotoObjectUrlSettle (photoId : String) (_outcome : Option PhotoUrl)
    (st : DedupState) : DedupState :=
  { st with pendingRequests := st.pendingRequests.filter (fun e => !(e.1 == photoId)) }

/-- PhotoService `getPhotosByLot`: the `by-lot` index of the photo store. -/
def getPhotosByLot (s : OfflineStore) (lotId : String) : List Photo :=
  s.photos.filter (fun p => p.lot_id == lotId)

/-- PhotoService `setPrimaryPhoto(lotId, photoId)`: for every photo of the
lot, upsert it with `is_primary = (photo.id === photoId)`, a fresh
`updated_at` and `synced: false` (clear-then-set in one pass). -/
def setPrimaryRow (photoId : String) (now : Nat) (photo : Photo) : Photo :=
  { photo with is_primary := photo.id == photoId, updated_at := now, synced := false }

def setPrimaryPhoto (lotId photoId : String) (now : Nat) (s : OfflineStore) : OfflineStore :=
  (getPhotosByLot s lotId).foldl
    (fun acc photo =>
      { acc with photos := putKeyed Photo.id (setPrimaryRow photoId now photo) acc.photos })
    s

/-! ## Status/Progress broadcaster

Embeds the listener registry and the reference-counted `isSyncing` flag of
SyncService. Callbacks are identified by numbers; an "invocation" of
callback `cb` with payload `x` is the pair `(cb, x)` in the emitted list. -/

structure SyncSvcState where
  isSyncing : Bool
  activeOperations : Nat
  syncProgress : Progress
  statusListeners : List Nat
  progressListeners : List Nat
  deriving DecidableEq, Repr

/-- `Set.add`: listeners are a JS `Set`, so adding is idempotent. -/
def addListener (cb : Nat) (l : List Nat) : List Nat :=
  if cb ∈ l then l else l ++ [cb]

/-- `Set.delete`. -/
def removeListener (cb : Nat) (l : List Nat) : List Nat :=
  l.filter (fun x => !(x == cb))

/-- The broadcast performed by `notifySyncStatusChange`. -/
def notifySyncStatusChange (s : SyncSvcState) : List (Nat × Bool) :=
  s.statusListeners.map (fun cb => (cb, s.isSyncing))

/-- `onSyncStatusChange(cb)`: register and invoke `cb` immediately with the
current flag; the returned unsubscribe action is `unsubscribeStatus`. -/
def onSyncStatusChange (cb : Nat) (s : SyncSvcState) : SyncSvcState × List (Nat × Bool) :=
  ({ s with statusListeners := addListener cb s.statusListeners }, [(cb, s.isSyncing)])

def unsubscribeStatus (cb : Nat) (s : SyncSvcState) : SyncSvcState :=
  { s with statusListeners := removeListener cb s.statusListeners }

/-- `onProgressChange(cb)`: register only; the source performs no immediate
invocation of the callback. -/
def onProgressChange (cb : Nat) (s : SyncSvcState) : SyncSvcState × List (Nat × Progress) :=
  ({ s with progressListeners := addListener cb s.progressListeners }, [])

def unsubscribeProgress (cb : Nat) (s : SyncSvcState) : SyncSvcState :=
  { s with progressListeners := removeListener cb s.progressListeners }

/-- `notifyProgress(stage, current)`: store the tuple, broadcast it. -/
def notifyProgressB (stage : String) (current : Nat) (s : SyncSvcState) :
    SyncSvcState × List (Nat × Progress) :=
  let s' := { s with syncProgress := ⟨stage, current, 7⟩ }
  (s', s'.progressListeners.map (fun cb => (cb, s'.syncProgress)))

/-- `startOperation()`: increment the count; on the flag's false-to-true
transition broadcast the new status. -/
def startOperation (s : SyncSvcState) : SyncSvcState × List (Nat × Bool) :=
  let s1 := { s with activeOperations := s.activeOperations + 1 }
  if !s1.isSyncing then
    let s2 := { s1 with isSyncing := true }
    (s2, notifySyncStatusChange s2)
  else (s1, [])

/-- `endOperation()`: decrement (clamped at zero, as `Math.max(0, n-1)`); on
reaching zero while syncing, clear the flag and broadcast. -/
def endOperation (s : SyncSvcState) : SyncSvcState × List (Nat × Bool) :=
  let s1 := { s with activeOperations := s.activeOperations - 1 }
  if s1.activeOperations == 0 && s1.isSyncing then
    let s2 := { s1 with isSyncing := false }
    (s2, notifySyncStatusChange s2)
  else (s1, [])

/-! ## Bounded download scheduler (`runWithConcurrency`)

Embeds the optimized SyncService's `runWithConcurrency` as a state machine
over the event loop. A worker invocation is a `Job`: `dur` time units until
its promise settles, `ok` telling whether it resolves or rejects. The loop
alternates the inner admission `while` (`fill`) with one `Promise.race`
await; at a race, every promise whose time is up settles, its `finally`
removes it from `running`, and the race outcome is that of the first
settling promise. When that outcome is a rejection the `await` throws and
`runWithConcurrency` rejects, abandoning the items still queued. -/

structure Job where
  id : Nat
  dur : Nat
  ok : Bool
  deriving DecidableEq, Repr

structure SchedState where
  queue : List Job
  running : List Job
  started : List Nat
  peak : Nat
  deriving DecidableEq, Repr

/-- The inner admission loop: `while (running.length < concurrency &&
queue.length > 0) { start the next worker }`. `started` records each
invocation; `peak` tracks the largest in-flight count ever observed. -/
def fill (c : Nat) : List Job → List Job → List Nat → Nat → SchedState
  | [], running, started, peak => ⟨[], running, started, peak⟩
  | j :: q, running, started, peak =>
    if running.length < c then
      fill c q (running ++ [j]) (started ++ [j.id]) (max peak (running.length + 1))
    else ⟨j :: q, running, started, peak⟩

def fillState (c : Nat) (s : SchedState) : SchedState :=
  fill c s.queue s.running s.started s.peak

/-- Remaining time of the earliest-settling promise. -/
def minDur (js : List Job) (d : Nat) : Nat :=
  js.foldl (fun m j => min m j.dur) d

/-- Advance time by `m`: promises whose time is up settle and are removed
from `running` by their `finally` handlers. -/
def raceAdvance (m : Nat) (js : List Job) : List Job :=
  (js.map (fun j => { j with dur := j.dur - m })).filter (fun j => !(j.dur == 0))

/-- Whether the race outcome is a resolution: the first promise to settle
(the first in insertion order among those settling now) decides. -/
def winnerOk (js : List Job) (m : Nat) : Bool :=
  match js.find? (fun x => x.dur == m) with
  | some w => w.ok
  | none => true

/-- One `Promise.race` await over a non-empty running list: whether the
first promise to settle resolves, and the running list the `finally`
handlers leave behind. -/
def raceOutcome (js : List Job) : Bool × List Job :=
  match js with
  | [] => (true, [])
  | j :: rest =>
    (winnerOk (j :: rest) (minDur rest j.dur),
     raceAdvance (minDur rest j.dur) (j :: rest))

/-- The outer loop of `runWithConcurrency`, with fuel. An exhausted fuel
(`none`) corresponds to a non-terminating run (possible only when the
concurrency bound is zero). `Except.error` is the rejection path: the race
re-threw a worker's failure out of the function, abandoning the queue. -/
def runLoop (c : Nat) : Nat → SchedState → Option (Except SchedState SchedState)
  | 0, _ => none
  | fuel + 1, s =>
    if s.queue.isEmpty && s.running.isEmpty then some (.ok s)
    else
      if (fillState c s).running.isEmpty then runLoop c fuel (fillState c s)
      else
        if (raceOutcome (fillState c s).running).1 then
          runLoop c fuel
            { fillState c s with running := (raceOutcome (fillState c s).running).2 }
        else
          some (.error
            { fillState c s with running := (raceOutcome (fillState c s).running).2 })

/-- Total remaining work, the fuel measure. -/
def totalDur (js : List Job) : Nat :=
  (js.map Job.dur).sum

/-- `runWithConcurrency(items, worker, maxConcurrent)`. -/
def runWithConcurrency (items : List Job) (c : Nat) :
    Option (Except SchedState SchedState) :=
  runLoop c (totalDur items + 1) ⟨items, [], [], 0⟩


/-! ## Helper definitions used by the verification statements -/

/-- The pendingSync-queue evolution performed by one `pushPendingStep`. -/
def pendingQueueStep (applyRes : String → PushRes) (l : List PendingSyncItem)
    (item : PendingSyncItem) : List PendingSyncItem :=
  match applyRes item.id with
  | .okRes => markSynced item.id l
  | _ => l

/-- The state carried by either outcome of a scheduler run. -/
def stateOf : Except SchedState SchedState → SchedState
  | .ok s => s
  | .error s => s

/-- Rows equal in every field except possibly the local `synced` flag. -/
def photoEqExceptSynced (a b : Photo) : Prop :=
  a.id = b.id ∧ a.lot_id = b.lot_id ∧ a.file_path = b.file_path ∧
    a.is_primary = b.is_primary ∧ a.updated_at = b.updated_at

instance (a b : Photo) : Decidable (photoEqExceptSynced a b) := by
  unfold photoEqExceptSynced; infer_instance

/-- Every photo row pulled by stages 5 and 7 of one sync call. -/
def pulledPhotoRows (r : Remote) (companyId : String) : List RemotePhoto :=
  let lots := lotRowsFor r (activeSaleRows r companyId)
  primaryPhotoRows r lots ++ remainingPhotoRows r lots

/-- The joint evolution of the `photos` and `photoBlobs` stores performed by
`syncPhotoOne` for one pulled photo (the stores other than these two are
untouched by stages 5 and 7). -/
def photoPairStep (r : Remote) (pb : List Photo × List PhotoBlobRow)
    (p : RemotePhoto) : List Photo × List PhotoBlobRow :=
  let ph1 := putKeyed Photo.id (photoOfRemote p false) pb.1
  match lookupKeyed PhotoBlobRow.id p.id pb.2 with
  | some _ => (ph1, pb.2)
  | none =>
    match storageDownload r p.file_path with
    | some bytes =>
      (putKeyed Photo.id (photoOfRemote p true) ph1,
       putKeyed PhotoBlobRow.id ⟨p.id, bytes⟩ pb.2)
    | none => (ph1, pb.2)

/-- The photos/photoBlobs pair after a stage-5/7 fold. -/
def photoPairFold (r : Remote) (ps : List RemotePhoto)
    (pb : List Photo × List PhotoBlobRow) : List Photo × List PhotoBlobRow :=
  ps.foldl (photoPairStep r) pb

/-- No stage fetch of the pull is flagged to fail. -/
def noFetchFailures (r : Remote) : Prop :=
  r.companyFetchFails = false ∧ r.salesFetchFails = false ∧
    r.lotsFetchFails = false ∧ r.companyContactsFetchFails = false ∧
    r.saleContactsFetchFails = false ∧ r.primaryPhotosFetchFails = false ∧
    r.companyDocumentsFetchFails = false ∧ r.saleDocumentsFetchFails = false ∧
    r.remainingPhotosFetchFails = false

/-- Two pulls in immediate succession: the second call starts from the first
run's store, with no remote change and no interleaved local writes. -/
def secondPull (r : Remote) (cid : String) (now1 now2 : Nat) (s : OfflineStore) :
    SyncRun :=
  performInitialSync false r cid now2 (performInitialSync false r cid now1 s).store

end CatalogListPro

namespace CatalogListPro

/-! ## Keyed-store lemmas -/

theorem putKeyed_cons_pos {α : Type} (key : α → String) (row x : α) (xs : List α)
    (h : key x = key row) : putKeyed key row (x :: xs) = row :: xs := by
  simp [putKeyed, h]

theorem putKeyed_cons_neg {α : Type} (key : α → String) (row x : α) (xs : List α)
    (h : ¬ key x = key row) : putKeyed key row (x :: xs) = x :: putKeyed key row xs := by
  simp [putKeyed, h]

theorem lookupKeyed_cons_pos {α : Type} (key : α → String) (k : String) (x : α)
    (xs : List α) (h : key x = k) : lookupKeyed key k (x :: xs) = some x := by
  simp [lookupKeyed, h]

theorem lookupKeyed_cons_neg {α : Type} (key : α → String) (k : String) (x : α)
    (xs : List α) (h : ¬ key x = k) :
    lookupKeyed key k (x :: xs) = lookupKeyed key k xs := by
  simp [lookupKeyed, h]

theorem putKeyed_map_key {α : Type} (key : α → String) (row : α) (l : List α) :
    (putKeyed key row l).map key =
      if key row ∈ l.map key then l.map key else l.map key ++ [key row] := by
  induction l with
  | nil => simp [putKeyed]
  | cons x xs ih =>
    by_cases h : key x = key row
    · rw [putKeyed_cons_pos key row x xs h]
      simp [h]
    · rw [putKeyed_cons_neg key row x xs h]
      have h' : ¬ key row = key x := fun hr => h hr.symm
      by_cases hm : key row ∈ xs.map key
      · simp [ih, hm, h']
      · simp [ih, hm, h']

theorem mem_map_key_putKeyed {α : Type} (key : α → String) (row : α) (l : List α)
    {k : String} (h : k ∈ l.map key) : k ∈ (putKeyed key row l).map key := by
  rw [putKeyed_map_key]
  by_cases hm : key row ∈ l.map key <;> simp [hm, h]

theorem self_mem_map_key_putKeyed {α : Type} (key : α → String) (row : α) (l : List α) :
    key row ∈ (putKeyed key row l).map key := by
  rw [putKeyed_map_key]
  by_cases hm : key row ∈ l.map key <;> simp [hm]

theorem putKeyed_nodup {α : Type} (key : α → String) (row : α) (l : List α)
    (h : (l.map key).Nodup) : ((putKeyed key row l).map key).Nodup := by
  rw [putKeyed_map_key]
  by_cases hm : key row ∈ l.map key
  · simpa [hm] using h
  · rw [if_neg hm]
    refine List.Nodup.append h (List.nodup_singleton _) ?_
    intro a ha hb
    rw [List.mem_singleton] at hb
    exact hm (hb ▸ ha)

theorem putKeyed_putKeyed_same {α : Type} (key : α → String) (row : α) (l : List α) :
    putKeyed key row (putKeyed key row l) = putKeyed key row l := by
  induction l with
  | nil => simp [putKeyed]
  | cons x xs ih =>
    by_cases h : key x = key row
    · rw [putKeyed_cons_pos key row x xs h, putKeyed_cons_pos key row row xs rfl]
    · rw [putKeyed_cons_neg key row x xs h, putKeyed_cons_neg key row x _ h, ih]

theorem putKeyed_comm_of_mem {α : Type} (key : α → String) (r r' : α) (l : List α)
    (hne : key r ≠ key r') (hmem : key r ∈ l.map key) :
    putKeyed key r (putKeyed key r' l) = putKeyed key r' (putKeyed key r l) := by
  induction l with
  | nil => simp at hmem
  | cons x xs ih =>
    rw [List.map_cons, List.mem_cons] at hmem
    by_cases hxr : key x = key r
    · have hxr' : ¬ key x = key r' := fun hh => hne (hxr.symm.trans hh)
      rw [putKeyed_cons_neg key r' x xs hxr', putKeyed_cons_pos key r x _ hxr,
        putKeyed_cons_pos key r x xs hxr, putKeyed_cons_neg key r' r xs hne]
    · by_cases hxr' : key x = key r'
      · have hr'r : ¬ key r' = key r := fun hh => hne hh.symm
        rw [putKeyed_cons_pos key r' x xs hxr', putKeyed_cons_neg key r r' xs hr'r,
          putKeyed_cons_neg key r x xs hxr, putKeyed_cons_pos key r' x _ hxr']
      · have hmem' : key r ∈ xs.map key := by
          rcases hmem with hh | hh
          · exact absurd hh.symm hxr
          · exact hh
        rw [putKeyed_cons_neg key r' x xs hxr', putKeyed_cons_neg key r x _ hxr,
          putKeyed_cons_neg key r x xs hxr, putKeyed_cons_neg key r' x _ hxr',
          ih hmem']

theorem putKeyed_upsertAll_comm {α : Type} (key : α → String) (r : α) (rs : List α)
    (l : List α) (hmem : key r ∈ l.map key) (hnot : key r ∉ rs.map key) :
    putKeyed key r (upsertAll key rs l) = upsertAll key rs (putKeyed key r l) := by
  induction rs generalizing l with
  | nil => simp [upsertAll]
  | cons r' rs ih =>
    have hne : key r ≠ key r' := by
      intro h; exact hnot (by simp [h])
    have hnot' : key r ∉ rs.map key := fun h => hnot (by simp [h])
    simp only [upsertAll, List.foldl_cons] at *
    rw [ih (putKeyed key r' l) (mem_map_key_putKeyed key r' l hmem) hnot',
      putKeyed_comm_of_mem key r r' l hne hmem]

theorem upsertAll_idem {α : Type} (key : α → String) (rows : List α) (l : List α)
    (h : (rows.map key).Nodup) :
    upsertAll key rows (upsertAll key rows l) = upsertAll key rows l := by
  induction rows generalizing l with
  | nil => simp [upsertAll]
  | cons r rs ih =>
    rw [List.map_cons, List.nodup_cons] at h
    obtain ⟨hr, hrs⟩ := h
    simp only [upsertAll, List.foldl_cons]
    have hmem : key r ∈ (putKeyed key r l).map key := self_mem_map_key_putKeyed key r l
    calc upsertAll key rs (putKeyed key r (upsertAll key rs (putKeyed key r l)))
        = upsertAll key rs (upsertAll key rs (putKeyed key r (putKeyed key r l))) := by
          rw [putKeyed_upsertAll_comm key r rs (putKeyed key r l) hmem hr]
      _ = upsertAll key rs (upsertAll key rs (putKeyed key r l)) := by
          rw [putKeyed_putKeyed_same]
      _ = upsertAll key rs (putKeyed key r l) := ih _ hrs

theorem lookupKeyed_putKeyed_self {α : Type} (key : α → String) (row : α) (l : List α) :
    lookupKeyed key (key row) (putKeyed key row l) = some row := by
  induction l with
  | nil => simp [putKeyed, lookupKeyed]
  | cons x xs ih =>
    by_cases h : key x = key row
    · rw [putKeyed_cons_pos key row x xs h, lookupKeyed_cons_pos key _ row xs rfl]
    · rw [putKeyed_cons_neg key row x xs h, lookupKeyed_cons_neg key _ x _ h, ih]

theorem lookupKeyed_putKeyed_ne {α : Type} (key : α → String) (row : α) (l : List α)
    {k : String} (h : k ≠ key row) :
    lookupKeyed key k (putKeyed key row l) = lookupKeyed key k l := by
  induction l with
  | nil =>
    have : ¬ key row = k := fun hh => h hh.symm
    simp [putKeyed, lookupKeyed, this]
  | cons x xs ih =>
    by_cases hx : key x = key row
    · have hxk : ¬ key x = k := fun hh => h (hh.symm.trans hx)
      have hrk : ¬ key row = k := fun hh => h hh.symm
      rw [putKeyed_cons_pos key row x xs hx, lookupKeyed_cons_neg key k row xs hrk,
        lookupKeyed_cons_neg key k x xs hxk]
    · by_cases hk : key x = k
      · rw [putKeyed_cons_neg key row x xs hx, lookupKeyed_cons_pos key k x _ hk,
          lookupKeyed_cons_pos key k x xs hk]
      · rw [putKeyed_cons_neg key row x xs hx, lookupKeyed_cons_neg key k x _ hk,
          lookupKeyed_cons_neg key k x xs hk, ih]

end CatalogListPro

namespace CatalogListPro

/-! ## Lookup lemmas -/

theorem lookupKeyed_key_eq {α : Type} (key : α → String) (k : String) (l : List α)
    {x : α} (h : lookupKeyed key k l = some x) : key x = k := by
  induction l with
  | nil => simp [lookupKeyed] at h
  | cons y ys ih =>
    by_cases hy : key y = k
    · rw [lookupKeyed_cons_pos key k y ys hy] at h
      cases h
      exact hy
    · rw [lookupKeyed_cons_neg key k y ys hy] at h
      exact ih h

theorem lookupKeyed_mem {α : Type} (key : α → String) (k : String) (l : List α)
    {x : α} (h : lookupKeyed key k l = some x) : x ∈ l := by
  induction l with
  | nil => simp [lookupKeyed] at h
  | cons y ys ih =>
    by_cases hy : key y = k
    · rw [lookupKeyed_cons_pos key k y ys hy] at h
      cases h
      exact List.mem_cons_self _ _
    · rw [lookupKeyed_cons_neg key k y ys hy] at h
      exact List.mem_cons_of_mem _ (ih h)

theorem lookupKeyed_self_of_nodup {α : Type} (key : α → String) (l : List α)
    (hnd : (l.map key).Nodup) {x : α} (hx : x ∈ l) :
    lookupKeyed key (key x) l = some x := by
  induction l with
  | nil => simp at hx
  | cons y ys ih =>
    rw [List.map_cons, List.nodup_cons] at hnd
    rcases List.mem_cons.mp hx with rfl | hx'
    · exact lookupKeyed_cons_pos key _ _ ys rfl
    · have hne : ¬ key y = key x := by
        intro he
        have : key y ∈ ys.map key := by
          rw [he]
          exact List.mem_map_of_mem key hx'
        exact hnd.1 this
      rw [lookupKeyed_cons_neg key _ y ys hne]
      exact ih hnd.2 hx'

theorem lookupKeyed_filter_out {α : Type} (key : α → String) (k : String) (l : List α) :
    lookupKeyed key k (l.filter (fun x => !(key x == k))) = none := by
  induction l with
  | nil => rfl
  | cons y ys ih =>
    by_cases hy : key y = k
    · simpa [List.filter_cons, hy] using ih
    · have : (!(key y == k)) = true := by simp [hy]
      rw [List.filter_cons, if_pos (by simpa using this),
        lookupKeyed_cons_neg key k y _ hy]
      exact ih

theorem upsertAll_append {α : Type} (key : α → String) (A B l : List α) :
    upsertAll key (A ++ B) l = upsertAll key B (upsertAll key A l) := by
  simp [upsertAll, List.foldl_append]

/-! ## C9: observer registration (corrected)

`onSyncStatusChange(cb)` does invoke `cb` immediately with the current flag,
but `onProgressChange(cb)` only registers the callback without any immediate
invocation; both return unsubscribe actions that remove the observer. -/

/-- C9 counterexample: registering a progress observer on a fresh service
emits no immediate invocation at all, refuting the claim that
`onProgressChange(cb)` immediately invokes `cb` once with the current
`{stage, current, total}` tuple. -/
theorem onProgressChange_no_immediate_cx :
    (onProgressChange 1 ⟨false, 0, ⟨"", 0, 7⟩, [], []⟩).2 = [] ∧
    (onProgressChange 1 ⟨false, 0, ⟨"", 0, 7⟩, [], []⟩).2 ≠
      [(1, Progress.mk "" 0 7)] := by
  decide

/-- C9 amended: `onSyncStatusChange(cb)` registers `cb` and immediately
invokes it exactly once with the current is-syncing flag; `onProgressChange(cb)`
only registers `cb` (no immediate invocation). Each returns an unsubscribe
action whose invocation removes the observer, after which broadcasts deliver
nothing to it. -/
theorem observer_registration_amended (s : SyncSvcState) (cb : Nat) :
    (onSyncStatusChange cb s).2 = [(cb, s.isSyncing)] ∧
    cb ∈ (onSyncStatusChange cb s).1.statusListeners ∧
    (onProgressChange cb s).2 = [] ∧
    cb ∈ (onProgressChange cb s).1.progressListeners ∧
    (∀ s' : SyncSvcState, cb ∉ (unsubscribeStatus cb s').statusListeners) ∧
    (∀ (s' : SyncSvcState) (b : Bool),
       (cb, b) ∉ notifySyncStatusChange (unsubscribeStatus cb s')) ∧
    (∀ s' : SyncSvcState, cb ∉ (unsubscribeProgress cb s').progressListeners) ∧
    (∀ (s' : SyncSvcState) (stg : String) (cur : Nat) (p : Progress),
       (cb, p) ∉ (notifyProgressB stg cur (unsubscribeProgress cb s')).2) := by
  refine ⟨rfl, ?_, rfl, ?_, ?_, ?_, ?_, ?_⟩
  · by_cases h : cb ∈ s.statusListeners <;>
      simp [onSyncStatusChange, addListener, h]
  · by_cases h : cb ∈ s.progressListeners <;>
      simp [onProgressChange, addListener, h]
  · intro s'
    simp [unsubscribeStatus, removeListener, List.mem_filter]
  · intro s' b
    simp only [notifySyncStatusChange, unsubscribeStatus, removeListener,
      List.mem_map, List.mem_filter, not_exists]
    intro x hx
    have hne : ¬ x = cb := by simpa using hx.1.2
    exact absurd (congrArg Prod.fst hx.2) hne
  · intro s'
    simp [unsubscribeProgress, removeListener, List.mem_filter]
  · intro s' stg cur p
    simp only [notifyProgressB, unsubscribeProgress, removeListener,
      List.mem_map, List.mem_filter, not_exists]
    intro x hx
    have hne : ¬ x = cb := by simpa using hx.1.2
    exact absurd (congrArg Prod.fst hx.2) hne

/-! ## C6: request deduplication in `getPhotoObjectUrl` (confirmed) -/

/-- C6: when a second `getPhotoObjectUrl` call for the same photo id begins
while the first is still pending, both calls share one promise (so they
resolve to the same value), the internal resolver — and with it the remote
signed-URL request — runs exactly once, and the pending-request map entry is
gone after the shared promise settles, whatever the outcome. -/
theorem getPhotoObjectUrl_dedup (st : DedupState) (pid : String)
    (h : lookupKeyed (fun e => e.1) pid st.pendingRequests = none) :
    (getPhotoObjectUrlEnter pid st).2 =
        (getPhotoObjectUrlEnter pid (getPhotoObjectUrlEnter pid st).1).2 ∧
    (getPhotoObjectUrlEnter pid (getPhotoObjectUrlEnter pid st).1).1.internalCalls =
        st.internalCalls + 1 ∧
    ∀ outcome : Option PhotoUrl,
      lookupKeyed (fun e => e.1) pid
        (getPhotoObjectUrlSettle pid outcome
          (getPhotoObjectUrlEnter pid
            (getPhotoObjectUrlEnter pid st).1).1).pendingRequests = none := by
  have h2 : lookupKeyed (fun e : String × Nat => e.1) pid
      (putKeyed (fun e => e.1) (pid, st.nextPromise) st.pendingRequests) =
        some (pid, st.nextPromise) :=
    lookupKeyed_putKeyed_self (fun e => e.1) (pid, st.nextPromise) st.pendingRequests
  refine ⟨?_, ?_, ?_⟩
  · simp [getPhotoObjectUrlEnter, h, h2]
  · simp [getPhotoObjectUrlEnter, h, h2]
  · intro outcome
    simp [getPhotoObjectUrlEnter, h, h2, getPhotoObjectUrlSettle,
      lookupKeyed_filter_out]

/-- C6 witness: the deduplication property at a concrete fresh service state
and photo id. -/
theorem getPhotoObjectUrl_dedup_witness :
    (getPhotoObjectUrlEnter "p1" ⟨[], 0, 0⟩).2 =
        (getPhotoObjectUrlEnter "p1" (getPhotoObjectUrlEnter "p1" ⟨[], 0, 0⟩).1).2 ∧
    (getPhotoObjectUrlEnter "p1"
        (getPhotoObjectUrlEnter "p1" ⟨[], 0, 0⟩).1).1.internalCalls =
      (⟨[], 0, 0⟩ : DedupState).internalCalls + 1 ∧
    ∀ outcome : Option PhotoUrl,
      lookupKeyed (fun e => e.1) "p1"
        (getPhotoObjectUrlSettle "p1" outcome
          (getPhotoObjectUrlEnter "p1"
            (getPhotoObjectUrlEnter "p1" ⟨[], 0, 0⟩).1).1).pendingRequests = none :=
  getPhotoObjectUrl_dedup ⟨[], 0, 0⟩ "p1" rfl

end CatalogListPro

namespace CatalogListPro

/-! ## Push-phase lemmas -/

theorem pushPendingAux_ops (f : String → PushRes) :
    ∀ (items : List PendingSyncItem) (acc : OfflineStore) (ops : List RemoteOp),
      (items.foldl (pushPendingStep f) (acc, ops)).2 =
        ops ++ items.map (fun i => RemoteOp.upsertRow i.table i.data) := by
  intro items
  induction items with
  | nil => intro acc ops; simp
  | cons i rest ih =>
    intro acc ops
    rw [List.foldl_cons]
    cases happ : f i.id <;> simp [pushPendingStep, happ, ih]

theorem pushPendingAux_store (f : String → PushRes) :
    ∀ (items : List PendingSyncItem) (acc : OfflineStore) (ops : List RemoteOp),
      (items.foldl (pushPendingStep f) (acc, ops)).1 =
        { acc with pendingSync := items.foldl (pendingQueueStep f) acc.pendingSync } := by
  intro items
  induction items with
  | nil => intro acc ops; rfl
  | cons i rest ih =>
    intro acc ops
    rw [List.foldl_cons, List.foldl_cons]
    cases happ : f i.id <;> simp [pushPendingStep, happ, pendingQueueStep, ih]

theorem markSynced_lookup_ne (k kid : String) (l : List PendingSyncItem)
    (hne : k ≠ kid) :
    lookupKeyed PendingSyncItem.id k (markSynced kid l) =
      lookupKeyed PendingSyncItem.id k l := by
  unfold markSynced
  cases hl : lookupKeyed PendingSyncItem.id kid l with
  | none => rfl
  | some item =>
    have hid0 : item.id = kid := @lookupKeyed_key_eq _ PendingSyncItem.id kid l item hl
    have hkk : k ≠ ({ item with synced := true } : PendingSyncItem).id :=
      fun h => hne (h.trans hid0)
    exact lookupKeyed_putKeyed_ne PendingSyncItem.id _ l hkk

theorem markSynced_lookup_self (kid : String) (l : List PendingSyncItem)
    (item : PendingSyncItem)
    (hl : lookupKeyed PendingSyncItem.id kid l = some item) :
    lookupKeyed PendingSyncItem.id kid (markSynced kid l) =
      some { item with synced := true } := by
  have hid0 : item.id = kid := @lookupKeyed_key_eq _ PendingSyncItem.id kid l item hl
  unfold markSynced
  rw [hl]
  have h := lookupKeyed_putKeyed_self PendingSyncItem.id
    { item with synced := true } l
  rw [← hid0]
  exact h

theorem pendingFold_lookup_other (f : String → PushRes) :
    ∀ (items : List PendingSyncItem) (l : List PendingSyncItem) (k : String),
      (∀ i ∈ items, i.id ≠ k) →
      lookupKeyed PendingSyncItem.id k (items.foldl (pendingQueueStep f) l) =
        lookupKeyed PendingSyncItem.id k l := by
  intro items
  induction items with
  | nil => intro l k _; rfl
  | cons j rest ih =>
    intro l k hne
    have hj : j.id ≠ k := hne j (List.mem_cons_self _ _)
    have hrest : ∀ i ∈ rest, i.id ≠ k := fun i hi => hne i (List.mem_cons_of_mem _ hi)
    rw [List.foldl_cons, ih _ k hrest]
    cases happ : f j.id with
    | okRes =>
      simp only [pendingQueueStep, happ]
      exact markSynced_lookup_ne k j.id l (fun h => hj h.symm)
    | errRes => simp [pendingQueueStep, happ]
    | exn => simp [pendingQueueStep, happ]

theorem pendingFold_lookup (f : String → PushRes) :
    ∀ (items : List PendingSyncItem) (l : List PendingSyncItem),
      (items.map PendingSyncItem.id).Nodup →
      (∀ i ∈ items, lookupKeyed PendingSyncItem.id i.id l = some i) →
      ∀ i ∈ items,
        lookupKeyed PendingSyncItem.id i.id (items.foldl (pendingQueueStep f) l) =
          some (if f i.id = PushRes.okRes then { i with synced := true } else i) := by
  intro items
  induction items with
  | nil => intro l _ _ i hi; simp at hi
  | cons j rest ih =>
    intro l hnd hall i hi
    rw [List.map_cons, List.nodup_cons] at hnd
    rw [List.foldl_cons]
    rcases List.mem_cons.mp hi with rfl | hi'
    · have hother : ∀ x ∈ rest, x.id ≠ i.id := by
        intro x hx he
        exact hnd.1 (by rw [← he]; exact List.mem_map_of_mem _ hx)
      rw [pendingFold_lookup_other f rest _ _ hother]
      have hl := hall i (List.mem_cons_self _ _)
      cases happ : f i.id with
      | okRes =>
        simp only [pendingQueueStep, happ, if_pos]
        exact markSynced_lookup_self i.id l i hl
      | errRes => simpa [pendingQueueStep, happ] using hl
      | exn => simpa [pendingQueueStep, happ] using hl
    · apply ih _ hnd.2 _ i hi'
      intro x hx
      have hxj : x.id ≠ j.id := by
        intro he
        exact hnd.1 (by rw [← he]; exact List.mem_map_of_mem _ hx)
      have hx0 := hall x (List.mem_cons_of_mem _ hx)
      cases happ : f j.id with
      | okRes =>
        simp only [pendingQueueStep, happ]
        rw [markSynced_lookup_ne x.id j.id l hxj]
        exact hx0
      | errRes => simpa [pendingQueueStep, happ] using hx0
      | exn => simpa [pendingQueueStep, happ] using hx0

theorem pushPhotosAux_pendingSync (m : String → Bool) :
    ∀ (items : List Photo) (acc : OfflineStore) (ops : List RemoteOp),
      ((items.foldl (pushPhotoStep m) (acc, ops)).1).pendingSync = acc.pendingSync := by
  intro items
  induction items with
  | nil => intro acc ops; rfl
  | cons p rest ih =>
    intro acc ops
    rw [List.foldl_cons]
    cases hb : lookupKeyed PhotoBlobRow.id p.id acc.photoBlobs with
    | none => simp [pushPhotoStep, hb, ih]
    | some b =>
      by_cases hm : m p.id <;>
        simp [pushPhotoStep, hb, saveMetadataToSupabase, hm, ih]

theorem pushUnsyncedPhotos_pendingSync (m : String → Bool) (s : OfflineStore) :
    (pushUnsyncedPhotos m s).1.pendingSync = s.pendingSync :=
  pushPhotosAux_pendingSync m (getUnsyncedPhotos s) s []

end CatalogListPro

namespace CatalogListPro

/-! ## C7: push marks a mutation synced iff the remote apply succeeded -/

/-- C7: during `pushLocalChanges`, a Pending Mutation ends `synced` exactly
when its remote upsert returned success; on a returned error or a thrown
exception the queue row is left untouched (still `synced = false`), so the
item is listed again by `getPendingSyncItems` on the resulting store and its
remote upsert is attempted again by the next push. -/
theorem pushLocalChanges_markSynced_iff (m : String → Bool) (f : String → PushRes)
    (s : OfflineStore)
    (hnd : (s.pendingSync.map PendingSyncItem.id).Nodup)
    (hun : ∀ i ∈ s.pendingSync, i.synced = false) :
    (∀ i ∈ getPendingSyncItems s,
       lookupKeyed PendingSyncItem.id i.id (pushLocalChanges m f s).1.pendingSync =
         some (if f i.id = PushRes.okRes then { i with synced := true } else i)) ∧
    (∀ i ∈ getPendingSyncItems s, f i.id ≠ PushRes.okRes →
       i.synced = false ∧
       i ∈ getPendingSyncItems (pushLocalChanges m f s).1 ∧
       RemoteOp.upsertRow i.table i.data ∈
         (pushPendingItems f (pushLocalChanges m f s).1).2) := by
  have hps : (pushUnsyncedPhotos m s).1.pendingSync = s.pendingSync :=
    pushUnsyncedPhotos_pendingSync m s
  have h1 : (pushLocalChanges m f s).1 =
      (pushPendingItems f (pushUnsyncedPhotos m s).1).1 := rfl
  have hstore : (pushPendingItems f (pushUnsyncedPhotos m s).1).1.pendingSync =
      s.pendingSync.foldl (pendingQueueStep f) s.pendingSync := by
    unfold pushPendingItems
    rw [pushPendingAux_store]
    simp [getPendingSyncItems, hps]
  have hlook : ∀ i ∈ s.pendingSync,
      lookupKeyed PendingSyncItem.id i.id
        (s.pendingSync.foldl (pendingQueueStep f) s.pendingSync) =
        some (if f i.id = PushRes.okRes then { i with synced := true } else i) :=
    pendingFold_lookup f s.pendingSync s.pendingSync hnd
      (fun i hi => lookupKeyed_self_of_nodup PendingSyncItem.id s.pendingSync hnd hi)
  constructor
  · intro i hi
    rw [h1, hstore]
    exact hlook i hi
  · intro i hi hfail
    have hl : lookupKeyed PendingSyncItem.id i.id
        (pushLocalChanges m f s).1.pendingSync = some i := by
      rw [h1, hstore]
      have := hlook i hi
      rwa [if_neg hfail] at this
    refine ⟨hun i hi, lookupKeyed_mem _ _ _ hl, ?_⟩
    have hops : (pushPendingItems f (pushLocalChanges m f s).1).2 =
        (pushLocalChanges m f s).1.pendingSync.map
          (fun i => RemoteOp.upsertRow i.table i.data) := by
      unfold pushPendingItems
      rw [pushPendingAux_ops]
      simp [getPendingSyncItems]
    rw [hops]
    exact List.mem_map_of_mem _ (lookupKeyed_mem _ _ _ hl)

/-- C7 witness: a queue of two unsynced mutations; the remote accepts the
first and rejects the second; after the push the first is marked synced and
the second is unchanged. -/
theorem pushLocalChanges_markSynced_iff_witness :
    lookupKeyed PendingSyncItem.id "m1"
      (pushLocalChanges (fun _ => true)
        (fun k => if k = "m1" then PushRes.okRes else PushRes.errRes)
        ⟨[], [], [], [], [], [], [],
         [⟨"m1", .delete, "lots", "d1", 0, false⟩,
          ⟨"m2", .create, "lots", "d2", 1, false⟩], [], none⟩).1.pendingSync =
      some ⟨"m1", .delete, "lots", "d1", 0, true⟩ ∧
    lookupKeyed PendingSyncItem.id "m2"
      (pushLocalChanges (fun _ => true)
        (fun k => if k = "m1" then PushRes.okRes else PushRes.errRes)
        ⟨[], [], [], [], [], [], [],
         [⟨"m1", .delete, "lots", "d1", 0, false⟩,
          ⟨"m2", .create, "lots", "d2", 1, false⟩], [], none⟩).1.pendingSync =
      some ⟨"m2", .create, "lots", "d2", 1, false⟩ := by
  have h := pushLocalChanges_markSynced_iff (fun _ => true)
    (fun k => if k = "m1" then PushRes.okRes else PushRes.errRes)
    ⟨[], [], [], [], [], [], [],
     [⟨"m1", .delete, "lots", "d1", 0, false⟩,
      ⟨"m2", .create, "lots", "d2", 1, false⟩], [], none⟩
    (by decide) (by decide)
  constructor
  · have h1 := h.1 ⟨"m1", .delete, "lots", "d1", 0, false⟩ (by decide)
    rw [if_pos (by decide)] at h1
    exact h1
  · have h2 := h.1 ⟨"m2", .create, "lots", "d2", 1, false⟩ (by decide)
    rw [if_neg (by decide)] at h2
    exact h2

/-! ## C10: pending deletes are pushed as remote upserts -/

/-- C10: `pushLocalChanges` applies every Pending Mutation with
`supabase.from(item.table).upsert(item.data)` no matter what `item.type`
says; a `delete`-typed mutation is pushed as a remote upsert of its payload,
and no remote delete is ever issued. -/
theorem pushLocalChanges_delete_as_upsert (m : String → Bool) (f : String → PushRes)
    (s : OfflineStore) :
    (pushLocalChanges m f s).2.2 =
      (getPendingSyncItems s).map (fun i => RemoteOp.upsertRow i.table i.data) ∧
    (∀ i ∈ getPendingSyncItems s, i.type = MutationType.delete →
       RemoteOp.upsertRow i.table i.data ∈ (pushLocalChanges m f s).2.2) ∧
    ∀ (t k : String), RemoteOp.deleteRow t k ∉ (pushLocalChanges m f s).2.2 := by
  have hps : (pushUnsyncedPhotos m s).1.pendingSync = s.pendingSync :=
    pushUnsyncedPhotos_pendingSync m s
  have hops : (pushLocalChanges m f s).2.2 =
      (getPendingSyncItems s).map (fun i => RemoteOp.upsertRow i.table i.data) := by
    have h2 : (pushLocalChanges m f s).2.2 =
        (pushPendingItems f (pushUnsyncedPhotos m s).1).2 := rfl
    rw [h2]
    unfold pushPendingItems
    rw [pushPendingAux_ops]
    simp [getPendingSyncItems, hps]
  refine ⟨hops, ?_, ?_⟩
  · intro i hi _
    rw [hops]
    exact List.mem_map_of_mem _ hi
  · intro t k hmem
    rw [hops] at hmem
    rcases List.mem_map.mp hmem with ⟨i, _, hbad⟩
    exact RemoteOp.noConfusion hbad

/-- C10 witness: a concrete `delete`-typed mutation is pushed as an upsert
of its data and no remote delete appears in the log. -/
theorem pushLocalChanges_delete_as_upsert_witness :
    (pushLocalChanges (fun _ => true) (fun _ => PushRes.errRes)
      ⟨[], [], [], [], [], [], [],
       [⟨"m1", .delete, "lots", "payload", 0, false⟩], [], none⟩).2.2 =
      [RemoteOp.upsertRow "lots" "payload"] ∧
    RemoteOp.deleteRow "lots" "m1" ∉
      (pushLocalChanges (fun _ => true) (fun _ => PushRes.errRes)
        ⟨[], [], [], [], [], [], [],
         [⟨"m1", .delete, "lots", "payload", 0, false⟩], [], none⟩).2.2 := by
  have h := pushLocalChanges_delete_as_upsert (fun _ => true) (fun _ => PushRes.errRes)
    ⟨[], [], [], [], [], [], [],
     [⟨"m1", .delete, "lots", "payload", 0, false⟩], [], none⟩
  exact ⟨h.1, h.2.2 "lots" "m1"⟩

end CatalogListPro

namespace CatalogListPro

/-! ## C8: primary-photo uniqueness -/

theorem setPrimary_store_fold (photoId : String) (now : Nat) :
    ∀ (todo : List Photo) (s : OfflineStore),
      todo.foldl
        (fun acc photo =>
          { acc with photos := putKeyed Photo.id (setPrimaryRow photoId now photo) acc.photos })
        s =
      { s with
        photos := todo.foldl
          (fun l photo => putKeyed Photo.id (setPrimaryRow photoId now photo) l) s.photos } := by
  intro todo
  induction todo with
  | nil => intro s; rfl
  | cons p rest ih =>
    intro s
    rw [List.foldl_cons, List.foldl_cons, ih]

theorem setPrimary_fold_cons_ne (photoId : String) (now : Nat) :
    ∀ (todo : List Photo) (y : Photo) (xs : List Photo),
      (∀ p ∈ todo, ¬ y.id = (setPrimaryRow photoId now p).id) →
      todo.foldl (fun l p => putKeyed Photo.id (setPrimaryRow photoId now p) l) (y :: xs) =
        y :: todo.foldl (fun l p => putKeyed Photo.id (setPrimaryRow photoId now p) l) xs := by
  intro todo
  induction todo with
  | nil => intro y xs _; rfl
  | cons p rest ih =>
    intro y xs hne
    have hy : ¬ Photo.id y = Photo.id (setPrimaryRow photoId now p) :=
      hne p (List.mem_cons_self _ _)
    rw [List.foldl_cons, List.foldl_cons,
      putKeyed_cons_neg Photo.id (setPrimaryRow photoId now p) y xs hy,
      ih y _ (fun q hq => hne q (List.mem_cons_of_mem _ hq))]

theorem setPrimary_fold_map (lotId photoId : String) (now : Nat) :
    ∀ (l : List Photo), (l.map Photo.id).Nodup →
      (l.filter (fun p => p.lot_id == lotId)).foldl
          (fun acc p => putKeyed Photo.id (setPrimaryRow photoId now p) acc) l =
        l.map (fun q => if q.lot_id == lotId then setPrimaryRow photoId now q else q) := by
  intro l
  induction l with
  | nil => intro _; rfl
  | cons x xs ih =>
    intro hnd
    rw [List.map_cons, List.nodup_cons] at hnd
    have hne : ∀ p ∈ xs.filter (fun p => p.lot_id == lotId),
        ¬ x.id = (setPrimaryRow photoId now p).id := by
      intro p hp he
      have hpx : p ∈ xs := List.mem_of_mem_filter hp
      exact hnd.1 (by
        rw [show x.id = p.id from he]
        exact List.mem_map_of_mem _ hpx)
    have hneRow : ∀ p ∈ xs.filter (fun p => p.lot_id == lotId),
        ¬ (setPrimaryRow photoId now x).id = (setPrimaryRow photoId now p).id := hne
    by_cases hx : (x.lot_id == lotId) = true
    · rw [List.filter_cons, if_pos hx, List.foldl_cons,
        putKeyed_cons_pos Photo.id (setPrimaryRow photoId now x) x xs rfl,
        setPrimary_fold_cons_ne photoId now (xs.filter (fun p => p.lot_id == lotId))
          (setPrimaryRow photoId now x) xs hneRow,
        ih hnd.2, List.map_cons, if_pos hx]
    · rw [List.filter_cons, if_neg hx,
        setPrimary_fold_cons_ne photoId now (xs.filter (fun p => p.lot_id == lotId))
          x xs hne,
        ih hnd.2, List.map_cons, if_neg hx]

theorem setPrimaryPhoto_photos (s : OfflineStore) (lotId photoId : String) (now : Nat)
    (hnd : (s.photos.map Photo.id).Nodup) :
    (setPrimaryPhoto lotId photoId now s).photos =
      s.photos.map (fun q => if q.lot_id == lotId then setPrimaryRow photoId now q else q) := by
  unfold setPrimaryPhoto getPhotosByLot
  rw [setPrimary_store_fold]
  exact setPrimary_fold_map lotId photoId now s.photos hnd

theorem length_le_one_of_nodup_keys {α : Type} (key : α → String) (l : List α)
    (k : String) (hnd : (l.map key).Nodup) (hall : ∀ x ∈ l, key x = k) :
    l.length ≤ 1 := by
  match l with
  | [] => simp
  | [a] => simp
  | a :: b :: rest =>
    exfalso
    rw [List.map_cons, List.nodup_cons] at hnd
    have ha : key a = k := hall a (List.mem_cons_self _ _)
    have hb : key b = k := hall b (List.mem_cons_of_mem _ (List.mem_cons_self _ _))
    exact hnd.1 (by rw [ha, ← hb]; exact List.mem_map_of_mem _ (List.mem_cons_self _ _))

theorem filter_map_swap {α : Type} (g : α → α) (pb : α → Bool) :
    ∀ l : List α, (l.map g).filter pb = (l.filter (fun p => pb (g p))).map g := by
  intro l
  induction l with
  | nil => rfl
  | cons x xs ih =>
    by_cases hx : pb (g x) = true
    · rw [List.map_cons, List.filter_cons, if_pos hx, List.filter_cons, if_pos hx,
        List.map_cons, ih]
    · rw [List.map_cons, List.filter_cons, if_neg hx, List.filter_cons, if_neg hx, ih]

/-- C8: after `setPrimaryPhoto(lotId, photoId)`, among the lot's photos a row
is primary exactly when its id is `photoId`; hence at most one such row,
exactly one when `photoId` belongs to the lot, and none when the lot has no
photos. (The store keeps photo ids unique, hence the `Nodup` hypothesis.) -/
theorem setPrimaryPhoto_unique (s : OfflineStore) (lotId photoId : String) (now : Nat)
    (hnd : (s.photos.map Photo.id).Nodup) :
    (∀ q ∈ (setPrimaryPhoto lotId photoId now s).photos,
       q.lot_id = lotId → (q.is_primary = true ↔ q.id = photoId)) ∧
    ((setPrimaryPhoto lotId photoId now s).photos.filter
        (fun q => q.lot_id == lotId && q.is_primary)).length ≤ 1 ∧
    (photoId ∈ (getPhotosByLot s lotId).map Photo.id →
      ((setPrimaryPhoto lotId photoId now s).photos.filter
          (fun q => q.lot_id == lotId && q.is_primary)).length = 1) ∧
    (getPhotosByLot s lotId = [] →
      (setPrimaryPhoto lotId photoId now s).photos.filter
          (fun q => q.lot_id == lotId && q.is_primary) = []) := by
  have hmap := setPrimaryPhoto_photos s lotId photoId now hnd
  have hfil : (setPrimaryPhoto lotId photoId now s).photos.filter
      (fun q => q.lot_id == lotId && q.is_primary) =
      (s.photos.filter (fun p => p.lot_id == lotId && p.id == photoId)).map
        (fun q => if q.lot_id == lotId then setPrimaryRow photoId now q else q) := by
    rw [hmap, filter_map_swap]
    congr 1
    apply List.filter_congr
    intro p _
    by_cases hp : (p.lot_id == lotId) = true
    · simp [hp, setPrimaryRow]
    · simp [hp]
  have hF_nodup : ∀ (pb : Photo → Bool),
      ((s.photos.filter pb).map Photo.id).Nodup := fun pb =>
    List.Nodup.sublist (List.Sublist.map Photo.id (List.filter_sublist s.photos)) hnd
  refine ⟨?_, ?_, ?_, ?_⟩
  · intro q hq hlot
    rw [hmap] at hq
    rcases List.mem_map.mp hq with ⟨p, _, rfl⟩
    by_cases hp : (p.lot_id == lotId) = true
    · simp only [if_pos hp, setPrimaryRow]
      constructor
      · intro h
        exact eq_of_beq h
      · intro h
        simpa using h
    · rw [if_neg hp] at hlot
      exact absurd (by simp [hlot]) hp
  · rw [hfil, List.length_map]
    apply length_le_one_of_nodup_keys Photo.id _ photoId (hF_nodup _)
    intro x hx
    have h2 := List.of_mem_filter hx
    simp only [Bool.and_eq_true] at h2
    exact eq_of_beq h2.2
  · intro hmem
    rcases List.mem_map.mp hmem with ⟨p, hp, hid⟩
    have hp' : p ∈ s.photos.filter (fun q => q.lot_id == lotId) := hp
    have hp1 : p ∈ s.photos := List.mem_of_mem_filter hp'
    have hp2 : (p.lot_id == lotId) = true := by
      have := List.of_mem_filter hp'
      simpa using this
    have hpF : p ∈ s.photos.filter (fun q => q.lot_id == lotId && q.id == photoId) := by
      apply List.mem_filter.mpr
      refine ⟨hp1, ?_⟩
      simp only [Bool.and_eq_true]
      exact ⟨hp2, by rw [hid]; exact beq_self_eq_true _⟩
    have hle : ((setPrimaryPhoto lotId photoId now s).photos.filter
        (fun q => q.lot_id == lotId && q.is_primary)).length ≤ 1 := by
      rw [hfil, List.length_map]
      apply length_le_one_of_nodup_keys Photo.id _ photoId (hF_nodup _)
      intro x hx
      have h2 := List.of_mem_filter hx
      simp only [Bool.and_eq_true] at h2
      exact eq_of_beq h2.2
    have hge : 1 ≤ ((setPrimaryPhoto lotId photoId now s).photos.filter
        (fun q => q.lot_id == lotId && q.is_primary)).length := by
      rw [hfil, List.length_map]
      refine List.length_pos.mpr (fun hnil => ?_)
      rw [hnil] at hpF
      simp at hpF
    omega
  · intro hempty
    rw [hfil]
    have hnil : s.photos.filter (fun p => p.lot_id == lotId && p.id == photoId) = [] := by
      rw [List.filter_eq_nil_iff]
      intro p hp hcontra
      simp only [Bool.and_eq_true] at hcontra
      have : p ∈ getPhotosByLot s lotId :=
        List.mem_filter.mpr ⟨hp, hcontra.1⟩
      rw [hempty] at this
      simp at this
    rw [hnil, List.map_nil]

end CatalogListPro

namespace CatalogListPro

/-- C8 witness: a three-photo store (two photos on the lot, one elsewhere);
after setting `p2` primary the lot has exactly one primary row. -/
theorem setPrimaryPhoto_unique_witness :
    ((setPrimaryPhoto "l1" "p2" 5
        ⟨[], [], [], [⟨"p1", "l1", "f1", true, false, 0⟩,
                      ⟨"p2", "l1", "f2", false, true, 0⟩,
                      ⟨"p3", "l2", "f3", true, true, 0⟩],
         [], [], [], [], [], none⟩).photos.filter
        (fun q => q.lot_id == "l1" && q.is_primary)).length = 1 := by
  have h := setPrimaryPhoto_unique
    ⟨[], [], [], [⟨"p1", "l1", "f1", true, false, 0⟩,
                  ⟨"p2", "l1", "f2", false, true, 0⟩,
                  ⟨"p3", "l2", "f3", true, true, 0⟩],
     [], [], [], [], [], none⟩ "l1" "p2" 5 (by decide)
  exact h.2.2.1 (by decide)

/-! ## C3: resolution order of the photo access resolver -/

/-- C3: `getPhotoObjectUrl`'s internal resolution tries, in order and
short-circuiting: (1) the local blob, returned as a local object URL with no
remote request; (2) an unexpired cached signed URL; (3) absent local
metadata gives `none`; (4) offline gives `none`; (5) otherwise a signed URL
is requested, cached with a 55-minute expiry, a best-effort background
download of the bytes is scheduled (its failure never changes the returned
reference, its success stores the blob), and the fresh URL is returned. -/
theorem getPhotoObjectUrl_resolution_order (csu : String → Option String)
    (dl : String → Option Nat) (pid : String) (st : ResolverState) :
    (∀ b, lookupKeyed PhotoBlobRow.id pid st.store.photoBlobs = some b →
       getPhotoObjectUrlInternal csu dl pid st =
         ⟨some (.objectUrl b.blob), st, false, false⟩) ∧
    (∀ entry, lookupKeyed PhotoBlobRow.id pid st.store.photoBlobs = none →
       lookupKeyed (fun e => e.1) pid st.signedUrlCache = some entry →
       st.now < entry.2.2 →
       getPhotoObjectUrlInternal csu dl pid st =
         ⟨some (.signed entry.2.1), st, false, false⟩) ∧
    (lookupKeyed PhotoBlobRow.id pid st.store.photoBlobs = none →
       (∀ entry, lookupKeyed (fun e => e.1) pid st.signedUrlCache = some entry →
          ¬ st.now < entry.2.2) →
       lookupKeyed Photo.id pid st.store.photos = none →
       getPhotoObjectUrlInternal csu dl pid st = ⟨none, st, false, false⟩) ∧
    (∀ photo, lookupKeyed PhotoBlobRow.id pid st.store.photoBlobs = none →
       (∀ entry, lookupKeyed (fun e => e.1) pid st.signedUrlCache = some entry →
          ¬ st.now < entry.2.2) →
       lookupKeyed Photo.id pid st.store.photos = some photo →
       st.online = false →
       getPhotoObjectUrlInternal csu dl pid st = ⟨none, st, false, false⟩) ∧
    (∀ photo url, lookupKeyed PhotoBlobRow.id pid st.store.photoBlobs = none →
       (∀ entry, lookupKeyed (fun e => e.1) pid st.signedUrlCache = some entry →
          ¬ st.now < entry.2.2) →
       lookupKeyed Photo.id pid st.store.photos = some photo →
       st.online = true →
       csu photo.file_path = some url →
       (getPhotoObjectUrlInternal csu dl pid st).result = some (.signed url) ∧
       (getPhotoObjectUrlInternal csu dl pid st).remoteRequested = true ∧
       (getPhotoObjectUrlInternal csu dl pid st).downloadScheduled = true ∧
       lookupKeyed (fun e => e.1) pid
           (getPhotoObjectUrlInternal csu dl pid st).state.signedUrlCache =
         some (pid, url, st.now + 55 * 60 * 1000) ∧
       (∀ dl' : String → Option Nat,
          (getPhotoObjectUrlInternal csu dl' pid st).result = some (.signed url)) ∧
       (∀ bytes, dl url = some bytes →
          lookupKeyed PhotoBlobRow.id pid
              (getPhotoObjectUrlInternal csu dl pid st).state.store.photoBlobs =
            some ⟨pid, bytes⟩)) := by
  have hcache : ∀ (dl' : String → Option Nat),
      lookupKeyed PhotoBlobRow.id pid st.store.photoBlobs = none →
      (∀ entry, lookupKeyed (fun e => e.1) pid st.signedUrlCache = some entry →
         ¬ st.now < entry.2.2) →
      getPhotoObjectUrlInternal csu dl' pid st = resolveFromMetadata csu dl' pid st := by
    intro dl' hb hc
    unfold getPhotoObjectUrlInternal
    rw [hb]
    cases hl : lookupKeyed (fun e : String × String × Nat => e.1) pid st.signedUrlCache with
    | none => rfl
    | some entry =>
      have := hc entry hl
      simp [this]
  refine ⟨?_, ?_, ?_, ?_, ?_⟩
  · intro b hb
    unfold getPhotoObjectUrlInternal
    rw [hb]
  · intro entry hb hcc hvalid
    unfold getPhotoObjectUrlInternal
    rw [hb, hcc]
    simp [hvalid]
  · intro hb hc hph
    rw [hcache dl hb hc]
    unfold resolveFromMetadata
    rw [hph]
  · intro photo hb hc hph hon
    rw [hcache dl hb hc]
    unfold resolveFromMetadata
    rw [hph]
    simp [hon]
  · intro photo url hb hc hph hon hurl
    have hstep : ∀ (dl' : String → Option Nat),
        getPhotoObjectUrlInternal csu dl' pid st =
          resolveFromMetadata csu dl' pid st := fun dl' => hcache dl' hb hc
    have hcacheLookup : ∀ (dl' : String → Option Nat),
        lookupKeyed (fun e : String × String × Nat => e.1) pid
            (resolveFromMetadata csu dl' pid st).state.signedUrlCache =
          some (pid, url, st.now + signedUrlTTL) := by
      intro dl'
      unfold resolveFromMetadata
      rw [hph]
      simp only [hon, Bool.not_true, if_false, hurl]
      cases hdl : dl' url with
      | none =>
        simpa using lookupKeyed_putKeyed_self (fun e : String × String × Nat => e.1)
          (pid, url, st.now + signedUrlTTL) st.signedUrlCache
      | some bytes =>
        simpa using lookupKeyed_putKeyed_self (fun e : String × String × Nat => e.1)
          (pid, url, st.now + signedUrlTTL) st.signedUrlCache
  -- result components
    have hresult : ∀ (dl' : String → Option Nat),
        (resolveFromMetadata csu dl' pid st).result = some (.signed url) ∧
        (resolveFromMetadata csu dl' pid st).remoteRequested = true ∧
        (resolveFromMetadata csu dl' pid st).downloadScheduled = true := by
      intro dl'
      unfold resolveFromMetadata
      rw [hph]
      simp only [hon, Bool.not_true, if_false, hurl]
      cases hdl : dl' url <;> simp
    refine ⟨(hstep dl ▸ (hresult dl).1), (hstep dl ▸ (hresult dl).2.1),
      (hstep dl ▸ (hresult dl).2.2), ?_, ?_, ?_⟩
    · rw [hstep dl]
      exact hcacheLookup dl
    · intro dl'
      rw [hstep dl']
      exact (hresult dl').1
    · intro bytes hbytes
      rw [hstep dl]
      unfold resolveFromMetadata
      rw [hph]
      simp only [hon, Bool.not_true, if_false, hurl, hbytes]
      simpa using lookupKeyed_putKeyed_self PhotoBlobRow.id ⟨pid, bytes⟩ st.store.photoBlobs

end CatalogListPro

namespace CatalogListPro

/-- C3 witness: branch 1 (blob present, no network) and branch 5 (fresh
signed URL with background blob download) at concrete states. -/
theorem getPhotoObjectUrl_resolution_order_witness :
    getPhotoObjectUrlInternal (fun _ => some "su") (fun _ => some 42) "p1"
        ⟨⟨[], [], [], [], [], [], [⟨"p1", 9⟩], [], [], none⟩, [], true, 0⟩ =
      ⟨some (.objectUrl 9),
        ⟨⟨[], [], [], [], [], [], [⟨"p1", 9⟩], [], [], none⟩, [], true, 0⟩,
        false, false⟩ ∧
    (getPhotoObjectUrlInternal (fun _ => some "su") (fun _ => some 42) "p1"
        ⟨⟨[], [], [], [⟨"p1", "l1", "f1", true, false, 0⟩], [], [], [], [], [], none⟩,
         [], true, 0⟩).result = some (.signed "su") ∧
    lookupKeyed PhotoBlobRow.id "p1"
        (getPhotoObjectUrlInternal (fun _ => some "su") (fun _ => some 42) "p1"
          ⟨⟨[], [], [], [⟨"p1", "l1", "f1", true, false, 0⟩], [], [], [], [], [], none⟩,
           [], true, 0⟩).state.store.photoBlobs = some ⟨"p1", 42⟩ := by
  refine ⟨?_, ?_, ?_⟩
  · exact (getPhotoObjectUrl_resolution_order (fun _ => some "su") (fun _ => some 42)
      "p1" ⟨⟨[], [], [], [], [], [], [⟨"p1", 9⟩], [], [], none⟩, [], true, 0⟩).1
      ⟨"p1", 9⟩ rfl
  · exact ((getPhotoObjectUrl_resolution_order (fun _ => some "su") (fun _ => some 42)
      "p1" ⟨⟨[], [], [], [⟨"p1", "l1", "f1", true, false, 0⟩], [], [], [], [], [], none⟩,
        [], true, 0⟩).2.2.2.2 ⟨"p1", "l1", "f1", true, false, 0⟩ "su" rfl
      (fun entry he => Option.noConfusion he) rfl rfl rfl).1
  · exact ((getPhotoObjectUrl_resolution_order (fun _ => some "su") (fun _ => some 42)
      "p1" ⟨⟨[], [], [], [⟨"p1", "l1", "f1", true, false, 0⟩], [], [], [], [], [], none⟩,
        [], true, 0⟩).2.2.2.2 ⟨"p1", "l1", "f1", true, false, 0⟩ "su" rfl
      (fun entry he => Option.noConfusion he) rfl rfl rfl).2.2.2.2.2 42 rfl

/-! ## C1: stage-failure propagation in `performInitialSync` (corrected)

Only the fetches of stages 1-3 (company, sales, lots) throw: the catch
block publishes the `Error` progress and re-throws, leaving the committed
prefix in the store. The fetches of stages 4-7 (contacts, primary images,
documents, remaining images) swallow their errors and the sync runs to
completion, recording `lastSyncTime` and broadcasting `Complete`. -/

/-- C1 counterexample: with the stage-5 (primary images) fetch failing, the
sync does not abort, publishes no error, re-throws nothing, and still
records `lastSyncTime` — refuting the claim for stage 5. -/
theorem pull_stage5_failure_swallowed_cx :
    (performInitialSync false
        ⟨[⟨"c1", "Acme", "active"⟩], [⟨"s1", "c1", "upcoming", 10⟩],
         [⟨"l1", "s1", 1⟩], [⟨"p1", "l1", "f1", true, 5⟩], [], [], [("f1", 7)],
         false, false, false, false, false, true, false, false, false, []⟩
        "c1" 100 ⟨[], [], [], [], [], [], [], [], [], none⟩).threw = false ∧
    (performInitialSync false
        ⟨[⟨"c1", "Acme", "active"⟩], [⟨"s1", "c1", "upcoming", 10⟩],
         [⟨"l1", "s1", 1⟩], [⟨"p1", "l1", "f1", true, 5⟩], [], [], [("f1", 7)],
         false, false, false, false, false, true, false, false, false, []⟩
        "c1" 100 ⟨[], [], [], [], [], [], [], [], [], none⟩).store.lastSyncTime =
      some 100 ∧
    pr "Error" 0 ∉
      (performInitialSync false
        ⟨[⟨"c1", "Acme", "active"⟩], [⟨"s1", "c1", "upcoming", 10⟩],
         [⟨"l1", "s1", 1⟩], [⟨"p1", "l1", "f1", true, 5⟩], [], [], [("f1", 7)],
         false, false, false, false, false, true, false, false, false, []⟩
        "c1" 100 ⟨[], [], [], [], [], [], [], [], [], none⟩).progress := by
  decide

/-- C1 amended: a fetch failure in stage 1, 2 or 3 publishes the `Error`
progress, aborts the remaining stages (the store is exactly the committed
prefix) and re-throws; once stages 1-3 succeed the sync always completes —
whatever the stage 4-7 fetch flags say — recording `lastSyncTime` and
broadcasting `Complete` instead of any error. -/
theorem pull_stage_failure_propagation (r : Remote) (cid : String) (now : Nat)
    (s0 : OfflineStore) :
    (r.companyFetchFails = true →
       performInitialSync false r cid now s0 =
         ⟨s0, [pr "Syncing company" 1, pr "Error" 0], true⟩) ∧
    (∀ s1 c, syncCompany r cid s0 = .ok (s1, c) → r.salesFetchFails = true →
       performInitialSync false r cid now s0 =
         ⟨s1, [pr "Syncing company" 1, pr "Syncing sales" 2, pr "Error" 0], true⟩) ∧
    (∀ s1 c s2 sales, syncCompany r cid s0 = .ok (s1, c) →
       syncActiveSales r cid s1 = .ok (s2, sales) →
       sales.isEmpty = false → r.lotsFetchFails = true →
       performInitialSync false r cid now s0 =
         ⟨s2, [pr "Syncing company" 1, pr "Syncing sales" 2, pr "Syncing lots" 3,
               pr "Error" 0], true⟩) ∧
    (∀ s1 c s2 sales s3 lots, syncCompany r cid s0 = .ok (s1, c) →
       syncActiveSales r cid s1 = .ok (s2, sales) →
       syncLots r sales s2 = .ok (s3, lots) →
       performInitialSync false r cid now s0 =
         ⟨setLastSyncTime now
            (syncRemainingImages r lots
              (syncDocuments r cid sales
                (syncPrimaryImages r lots
                  (syncContacts r cid sales s3)))),
          [pr "Syncing company" 1, pr "Syncing sales" 2, pr "Syncing lots" 3,
           pr "Syncing contacts" 4, pr "Syncing primary images" 5,
           pr "Syncing documents" 6, pr "Syncing remaining images" 7,
           pr "Complete" 7], false⟩) := by
  refine ⟨?_, ?_, ?_, ?_⟩
  · intro hcf
    simp [performInitialSync, syncCompany, hcf]
  · intro s1 c h1 hsf
    simp [performInitialSync, h1, syncActiveSales, hsf]
  · intro s1 c s2 sales h1 h2 hne hlf
    simp [performInitialSync, h1, h2, syncLots, hne, hlf]
  · intro s1 c s2 sales s3 lots h1 h2 h3
    simp [performInitialSync, h1, h2, h3]

/-- C1 witness: with a failing stage-2 fetch, the run aborts after the
committed company upsert, publishes `Error` and re-throws. -/
theorem pull_stage_failure_propagation_witness :
    performInitialSync false
        ⟨[⟨"c1", "Acme", "active"⟩], [⟨"s1", "c1", "upcoming", 10⟩], [], [], [], [],
         [], false, true, false, false, false, false, false, false, false, []⟩
        "c1" 7 ⟨[], [], [], [], [], [], [], [], [], none⟩ =
      ⟨⟨[⟨"c1", "Acme", "active"⟩], [], [], [], [], [], [], [], [], none⟩,
       [pr "Syncing company" 1, pr "Syncing sales" 2, pr "Error" 0], true⟩ :=
  (pull_stage_failure_propagation
    ⟨[⟨"c1", "Acme", "active"⟩], [⟨"s1", "c1", "upcoming", 10⟩], [], [], [], [],
     [], false, true, false, false, false, false, false, false, false, []⟩
    "c1" 7 ⟨[], [], [], [], [], [], [], [], [], none⟩).2.1
    ⟨[⟨"c1", "Acme", "active"⟩], [], [], [], [], [], [], [], [], none⟩
    ⟨"c1", "Acme", "active"⟩ rfl rfl

end CatalogListPro

namespace CatalogListPro

/-! ## Scheduler lemmas -/

theorem totalDur_cons (j : Job) (js : List Job) :
    totalDur (j :: js) = j.dur + totalDur js := by
  simp [totalDur]

theorem totalDur_append (a b : List Job) :
    totalDur (a ++ b) = totalDur a + totalDur b := by
  simp [totalDur]

theorem fill_started_queue (c : Nat) :
    ∀ (q run : List Job) (st : List Nat) (pk : Nat),
      (fill c q run st pk).started ++ ((fill c q run st pk).queue.map Job.id) =
        st ++ q.map Job.id := by
  intro q
  induction q with
  | nil => intro run st pk; simp [fill]
  | cons j q ih =>
    intro run st pk
    by_cases h : run.length < c
    · simp only [fill, if_pos h]
      rw [ih]
      simp
    · simp only [fill, if_neg h]

theorem fill_running_le (c : Nat) :
    ∀ (q run : List Job) (st : List Nat) (pk : Nat), run.length ≤ c →
      (fill c q run st pk).running.length ≤ c := by
  intro q
  induction q with
  | nil => intro run st pk h; simpa [fill] using h
  | cons j q ih =>
    intro run st pk h
    by_cases hlt : run.length < c
    · simp only [fill, if_pos hlt]
      exact ih _ _ _ (by simp <;> omega)
    · simpa [fill, if_neg hlt] using h

theorem fill_peak_le (c : Nat) :
    ∀ (q run : List Job) (st : List Nat) (pk : Nat), pk ≤ c → run.length ≤ c →
      (fill c q run st pk).peak ≤ c := by
  intro q
  induction q with
  | nil => intro run st pk h _; simpa [fill] using h
  | cons j q ih =>
    intro run st pk h hrun
    by_cases hlt : run.length < c
    · simp only [fill, if_pos hlt]
      exact ih _ _ _ (by omega) (by simp <;> omega)
    · simpa [fill, if_neg hlt] using h

theorem fill_queue_subset (c : Nat) :
    ∀ (q run : List Job) (st : List Nat) (pk : Nat),
      ∀ x ∈ (fill c q run st pk).queue, x ∈ q := by
  intro q
  induction q with
  | nil => intro run st pk x hx; simp [fill] at hx
  | cons j q ih =>
    intro run st pk x hx
    by_cases hlt : run.length < c
    · simp only [fill, if_pos hlt] at hx
      exact List.mem_cons_of_mem _ (ih _ _ _ x hx)
    · simp only [fill, if_neg hlt] at hx
      exact hx

theorem fill_running_subset (c : Nat) :
    ∀ (q run : List Job) (st : List Nat) (pk : Nat),
      ∀ x ∈ (fill c q run st pk).running, x ∈ run ∨ x ∈ q := by
  intro q
  induction q with
  | nil => intro run st pk x hx; simp [fill] at hx; exact Or.inl hx
  | cons j q ih =>
    intro run st pk x hx
    by_cases hlt : run.length < c
    · simp only [fill, if_pos hlt] at hx
      rcases ih _ _ _ x hx with hmem | hmem
      · rcases List.mem_append.mp hmem with hmem' | hmem'
        · exact Or.inl hmem'
        · rw [List.mem_singleton] at hmem'
          exact Or.inr (hmem' ▸ List.mem_cons_self _ _)
      · exact Or.inr (List.mem_cons_of_mem _ hmem)
    · simp only [fill, if_neg hlt] at hx
      exact Or.inl hx

theorem fill_running_nil (c : Nat) (hc : 1 ≤ c) :
    ∀ (q run : List Job) (st : List Nat) (pk : Nat),
      (fill c q run st pk).running = [] → q = [] ∧ run = [] := by
  intro q
  induction q with
  | nil => intro run st pk h; exact ⟨rfl, by simpa [fill] using h⟩
  | cons j q ih =>
    intro run st pk h
    by_cases hlt : run.length < c
    · simp only [fill, if_pos hlt] at h
      have := (ih _ _ _ h).2
      simp at this
    · exfalso
      simp only [fill, if_neg hlt] at h
      have : run = [] := h
      rw [this] at hlt
      simp at hlt
      omega

theorem fill_totalDur (c : Nat) :
    ∀ (q run : List Job) (st : List Nat) (pk : Nat),
      totalDur (fill c q run st pk).queue + totalDur (fill c q run st pk).running =
        totalDur q + totalDur run := by
  intro q
  induction q with
  | nil => intro run st pk; simp [fill]
  | cons j q ih =>
    intro run st pk
    by_cases hlt : run.length < c
    · simp only [fill, if_pos hlt]
      rw [ih]
      rw [totalDur_append, totalDur_cons]
      simp [totalDur]
      omega
    · simp only [fill, if_neg hlt]

theorem minDur_le_init : ∀ (js : List Job) (d : Nat), minDur js d ≤ d := by
  intro js
  induction js with
  | nil => intro d; simp [minDur]
  | cons x xs ih =>
    intro d
    have h1 : minDur xs (min d x.dur) ≤ min d x.dur := ih (min d x.dur)
    have : minDur (x :: xs) d = minDur xs (min d x.dur) := rfl
    rw [this]
    omega

theorem minDur_le_mem : ∀ (js : List Job) (d : Nat), ∀ j ∈ js, minDur js d ≤ j.dur := by
  intro js
  induction js with
  | nil => intro d j hj; simp at hj
  | cons x xs ih =>
    intro d j hj
    have heq : minDur (x :: xs) d = minDur xs (min d x.dur) := rfl
    rcases List.mem_cons.mp hj with rfl | hj'
    · have h1 : minDur xs (min d j.dur) ≤ min d j.dur := minDur_le_init xs _
      rw [heq]
      omega
    · rw [heq]
      exact ih _ j hj'

theorem minDur_pos : ∀ (js : List Job) (d : Nat), 1 ≤ d → (∀ j ∈ js, 1 ≤ j.dur) →
    1 ≤ minDur js d := by
  intro js
  induction js with
  | nil => intro d h _; simpa [minDur] using h
  | cons x xs ih =>
    intro d h hall
    have heq : minDur (x :: xs) d = minDur xs (min d x.dur) := rfl
    rw [heq]
    have hx : 1 ≤ x.dur := hall x (List.mem_cons_self _ _)
    exact ih _ (by omega) (fun j hj => hall j (List.mem_cons_of_mem _ hj))

theorem raceAdvance_length (m : Nat) (js : List Job) :
    (raceAdvance m js).length ≤ js.length := by
  unfold raceAdvance
  calc ((js.map (fun j => { j with dur := j.dur - m })).filter
          (fun j => !(j.dur == 0))).length
      ≤ (js.map (fun j => { j with dur := j.dur - m })).length :=
        List.length_filter_le _ _
    _ = js.length := List.length_map _ _

theorem raceAdvance_dur_pos (m : Nat) (js : List Job) :
    ∀ x ∈ raceAdvance m js, 1 ≤ x.dur := by
  intro x hx
  have h := List.of_mem_filter hx
  have : ¬ x.dur = 0 := by simpa using h
  omega

theorem raceAdvance_ok (m : Nat) (js : List Job) :
    ∀ x ∈ raceAdvance m js, ∃ j ∈ js, x.ok = j.ok := by
  intro x hx
  have h := List.mem_of_mem_filter hx
  rcases List.mem_map.mp h with ⟨j0, hj0, rfl⟩
  exact ⟨j0, hj0, rfl⟩

theorem totalDur_filter_pos (l : List Job) :
    totalDur (l.filter (fun j => !(j.dur == 0))) = totalDur l := by
  induction l with
  | nil => rfl
  | cons x xs ih =>
    by_cases hx : x.dur = 0
    · rw [List.filter_cons, if_neg (by simp [hx]), ih, totalDur_cons, hx]
      omega
    · rw [List.filter_cons, if_pos (by simp [hx]), totalDur_cons, totalDur_cons, ih]

theorem totalDur_map_sub_le (m : Nat) (l : List Job) :
    totalDur (l.map (fun j => { j with dur := j.dur - m })) ≤ totalDur l := by
  induction l with
  | nil => simp
  | cons x xs ih =>
    rw [List.map_cons, totalDur_cons, totalDur_cons]
    have : x.dur - m ≤ x.dur := Nat.sub_le _ _
    dsimp only
    omega

theorem raceAdvance_totalDur (m : Nat) (j : Job) (rest : List Job) (hm : m ≤ j.dur) :
    totalDur (raceAdvance m (j :: rest)) + m ≤ totalDur (j :: rest) := by
  unfold raceAdvance
  rw [totalDur_filter_pos, List.map_cons, totalDur_cons, totalDur_cons]
  have := totalDur_map_sub_le m rest
  dsimp only
  omega

theorem winnerOk_of_all_ok (js : List Job) (m : Nat) (h : ∀ j ∈ js, j.ok = true) :
    winnerOk js m = true := by
  unfold winnerOk
  cases hf : js.find? (fun x => x.dur == m) with
  | none => rfl
  | some w => exact h w (List.mem_of_find?_eq_some hf)

end CatalogListPro

namespace CatalogListPro

theorem runLoop_any (c : Nat) :
    ∀ (fuel : Nat) (s : SchedState) (res : Except SchedState SchedState),
      runLoop c fuel s = some res →
      s.running.length ≤ c → s.peak ≤ c →
      (stateOf res).peak ≤ c ∧
      (stateOf res).started ++ ((stateOf res).queue.map Job.id) =
        s.started ++ s.queue.map Job.id := by
  intro fuel
  induction fuel with
  | zero => intro s res h _ _; simp [runLoop] at h
  | succ fuel ih =>
    intro s res h hlen hpk
    rw [runLoop] at h
    by_cases hdone : (s.queue.isEmpty && s.running.isEmpty) = true
    · rw [if_pos hdone] at h
      cases h
      exact ⟨hpk, rfl⟩
    · rw [if_neg hdone] at h
      have hfl : (fillState c s).running.length ≤ c :=
        fill_running_le c s.queue s.running s.started s.peak hlen
      have hfp : (fillState c s).peak ≤ c :=
        fill_peak_le c s.queue s.running s.started s.peak hpk hlen
      have hfsq : (fillState c s).started ++ ((fillState c s).queue.map Job.id) =
          s.started ++ s.queue.map Job.id :=
        fill_started_queue c s.queue s.running s.started s.peak
      cases hr : (fillState c s).running with
      | nil =>
        rw [hr] at h
        simp only [List.isEmpty_nil, if_true] at h
        obtain ⟨h1, h2⟩ := ih (fillState c s) res h hfl hfp
        exact ⟨h1, h2.trans hfsq⟩
      | cons j rest =>
        rw [hr] at h
        simp only [List.isEmpty_cons, Bool.false_eq_true, if_false, raceOutcome] at h
        have hS2len : (raceAdvance (minDur rest j.dur) (j :: rest)).length ≤ c := by
          calc (raceAdvance (minDur rest j.dur) (j :: rest)).length
              ≤ (j :: rest).length := raceAdvance_length _ _
            _ = (fillState c s).running.length := by rw [hr]
            _ ≤ c := hfl
        by_cases hw : winnerOk (j :: rest) (minDur rest j.dur) = true
        · rw [if_pos hw] at h
          obtain ⟨h1, h2⟩ := ih _ res h hS2len hfp
          exact ⟨h1, h2.trans hfsq⟩
        · rw [if_neg hw] at h
          cases h
          refine ⟨hfp, ?_⟩
          exact hfsq

theorem runLoop_ok (c : Nat) (hc : 1 ≤ c) :
    ∀ (fuel : Nat) (s : SchedState),
      totalDur s.queue + totalDur s.running < fuel →
      (∀ j ∈ s.queue, 1 ≤ j.dur) → (∀ j ∈ s.running, 1 ≤ j.dur) →
      (∀ j ∈ s.queue, j.ok = true) → (∀ j ∈ s.running, j.ok = true) →
      ∃ t : SchedState, runLoop c fuel s = some (.ok t) ∧
        t.queue = [] ∧ t.running = [] ∧
        t.started = s.started ++ s.queue.map Job.id := by
  intro fuel
  induction fuel with
  | zero => intro s hfuel _ _ _ _; omega
  | succ fuel ih =>
    intro s hfuel hdq hdr hoq hor
    by_cases hdone : (s.queue.isEmpty && s.running.isEmpty) = true
    · have hq : s.queue = [] := by
        rcases Bool.and_eq_true _ _ ▸ hdone with ⟨h1, _⟩
        exact List.isEmpty_iff.mp h1
      have hru : s.running = [] := by
        rcases Bool.and_eq_true _ _ ▸ hdone with ⟨_, h2⟩
        exact List.isEmpty_iff.mp h2
      refine ⟨s, ?_, hq, hru, ?_⟩
      · rw [runLoop, if_pos hdone]
      · rw [hq]
        simp
    · have hdq1 : ∀ x ∈ (fillState c s).queue, 1 ≤ x.dur := fun x hx =>
        hdq x (fill_queue_subset c s.queue s.running s.started s.peak x hx)
      have hoq1 : ∀ x ∈ (fillState c s).queue, x.ok = true := fun x hx =>
        hoq x (fill_queue_subset c s.queue s.running s.started s.peak x hx)
      have hdr1 : ∀ x ∈ (fillState c s).running, 1 ≤ x.dur := fun x hx =>
        (fill_running_subset c s.queue s.running s.started s.peak x hx).elim
          (hdr x) (hdq x)
      have hor1 : ∀ x ∈ (fillState c s).running, x.ok = true := fun x hx =>
        (fill_running_subset c s.queue s.running s.started s.peak x hx).elim
          (hor x) (hoq x)
      have hfsq : (fillState c s).started ++ ((fillState c s).queue.map Job.id) =
          s.started ++ s.queue.map Job.id :=
        fill_started_queue c s.queue s.running s.started s.peak
      have hmu : totalDur (fillState c s).queue + totalDur (fillState c s).running =
          totalDur s.queue + totalDur s.running :=
        fill_totalDur c s.queue s.running s.started s.peak
      cases hr : (fillState c s).running with
      | nil =>
        exfalso
        have := fill_running_nil c hc s.queue s.running s.started s.peak hr
        rw [this.1, this.2] at hdone
        simp at hdone
      | cons j rest =>
        have hjdur : 1 ≤ j.dur := hdr1 j (by rw [hr]; exact List.mem_cons_self _ _)
        have hm1 : 1 ≤ minDur rest j.dur :=
          minDur_pos rest j.dur hjdur
            (fun x hx => hdr1 x (by rw [hr]; exact List.mem_cons_of_mem _ hx))
        have hmj : minDur rest j.dur ≤ j.dur := minDur_le_init rest j.dur
        have hw : winnerOk (j :: rest) (minDur rest j.dur) = true :=
          winnerOk_of_all_ok _ _ (fun x hx => hor1 x (by rw [hr]; exact hx))
        have hdec := raceAdvance_totalDur (minDur rest j.dur) j rest hmj
        have htr : totalDur (j :: rest) = totalDur (fillState c s).running := by
          rw [hr]
        obtain ⟨t, hrun, hq, hru, hst⟩ :=
          ih { fillState c s with
                running := raceAdvance (minDur rest j.dur) (j :: rest) }
            (by dsimp only; omega)
            hdq1 (fun x hx => raceAdvance_dur_pos _ _ x hx) hoq1
            (fun x hx => by
              rcases raceAdvance_ok _ _ x hx with ⟨j0, hj0, hok⟩
              rw [hok]
              exact hor1 j0 (by rw [hr]; exact hj0))
        refine ⟨t, ?_, hq, hru, ?_⟩
        · rw [runLoop, if_neg hdone, hr]
          simp only [List.isEmpty_cons, Bool.false_eq_true, if_false, raceOutcome]
          rw [if_pos hw]
          exact hrun
        · rw [hst]
          exact hfsq

end CatalogListPro

namespace CatalogListPro

/-! ## C4: bounded concurrency (corrected)

The in-flight bound holds for every run, but the "exactly once per item,
returns only after every invocation completed" half requires workers that
never reject: a rejecting worker makes `Promise.race` throw, the function
rejects, and queued items are never started. -/

/-- C4 counterexample: with `maxConcurrent = 1` and the first worker
rejecting, `runWithConcurrency` settles (rejects) having invoked the worker
only for item 1 — item 2 is never invoked, refuting "invokes the worker
exactly once per item" for arbitrary workers. -/
theorem runWithConcurrency_worker_failure_cx :
    runWithConcurrency [⟨1, 1, false⟩, ⟨2, 1, true⟩] 1 =
      some (.error ⟨[⟨2, 1, true⟩], [], [1], 1⟩) ∧
    ¬ ([1] : List Nat) = ([⟨1, 1, false⟩, ⟨2, 1, true⟩] : List Job).map Job.id :=
  ⟨rfl, by decide⟩

/-- C4 amended: for every run of `runWithConcurrency(items, worker, c)` with
`c ≥ 1`, the number of outstanding worker invocations never exceeds `c`
(`peak ≤ c`, for resolving and rejecting runs alike); and whenever no worker
invocation rejects, the worker is invoked exactly once per item, in order,
and the call returns only after all invocations completed (empty queue and
running set). -/
theorem runWithConcurrency_amended (items : List Job) (c : Nat) (hc : 1 ≤ c) :
    ((∀ j ∈ items, 1 ≤ j.dur) → (∀ j ∈ items, j.ok = true) →
       ∃ t : SchedState, runWithConcurrency items c = some (.ok t) ∧
         t.started = items.map Job.id ∧ t.queue = [] ∧ t.running = [] ∧
         t.peak ≤ c) ∧
    (∀ res : Except SchedState SchedState,
       runWithConcurrency items c = some res → (stateOf res).peak ≤ c) := by
  constructor
  · intro hdur hok
    obtain ⟨t, hrun, hq, hru, hst⟩ :=
      runLoop_ok c hc (totalDur items + 1) ⟨items, [], [], 0⟩
        (by simp [totalDur] <;> omega) hdur (by simp) hok (by simp)
    have hpk : t.peak ≤ c := by
      have := runLoop_any c (totalDur items + 1) ⟨items, [], [], 0⟩ (.ok t) hrun
        (by simp <;> omega) (by simp)
      exact this.1
    exact ⟨t, hrun, by simpa using hst, hq, hru, hpk⟩
  · intro res hres
    exact (runLoop_any c (totalDur items + 1) ⟨items, [], [], 0⟩ res hres
      (by simp <;> omega) (by simp)).1

/-- C4 witness: two unit-duration resolving workers under bound 1. -/
theorem runWithConcurrency_amended_witness :
    ∃ t : SchedState, runWithConcurrency [⟨1, 1, true⟩, ⟨2, 1, true⟩] 1 =
        some (.ok t) ∧
      t.started = ([⟨1, 1, true⟩, ⟨2, 1, true⟩] : List Job).map Job.id ∧
      t.queue = [] ∧ t.running = [] ∧ t.peak ≤ 1 :=
  (runWithConcurrency_amended [⟨1, 1, true⟩, ⟨2, 1, true⟩] 1 (by decide)).1
    (by decide) (by decide)

/-! ## C5: worker failures are not caught by the batch runner (corrected) -/

/-- C5 counterexample: with three items under bound 1 and the first worker
rejecting, `runWithConcurrency` rejects instead of returning normally, and
items 2 and 3 are never attempted — a single failing worker aborts the
batch. -/
theorem runWithConcurrency_no_catch_cx :
    runWithConcurrency [⟨1, 1, false⟩, ⟨2, 1, true⟩, ⟨3, 1, true⟩] 1 =
      some (.error ⟨[⟨2, 1, true⟩, ⟨3, 1, true⟩], [], [1], 1⟩) ∧
    ∀ t : SchedState,
      runWithConcurrency [⟨1, 1, false⟩, ⟨2, 1, true⟩, ⟨3, 1, true⟩] 1 ≠
        some (.ok t) := by
  refine ⟨rfl, ?_⟩
  intro t h
  rw [show runWithConcurrency [⟨1, 1, false⟩, ⟨2, 1, true⟩, ⟨3, 1, true⟩] 1 =
      some (.error ⟨[⟨2, 1, true⟩, ⟨3, 1, true⟩], [], [1], 1⟩) from rfl] at h
  exact Except.noConfusion (Option.some.inj h)

/-- C5 amended: `runWithConcurrency` does not catch individual worker
failures. A rejecting run implies some worker rejected, and the items still
queued at the rejection were never attempted (started plus queued equals the
whole batch); only when every worker resolves does the call run the worker
for every item and return normally. (In the source, the sync stages protect
themselves by catching errors inside the worker body instead.) -/
theorem runWithConcurrency_failure_aborts (items : List Job) (c : Nat)
    (hc : 1 ≤ c) (hdur : ∀ j ∈ items, 1 ≤ j.dur) :
    (∀ st : SchedState, runWithConcurrency items c = some (.error st) →
       (∃ j ∈ items, j.ok = false) ∧
       st.started ++ st.queue.map Job.id = items.map Job.id) ∧
    ((∀ j ∈ items, j.ok = true) →
       ∃ t : SchedState, runWithConcurrency items c = some (.ok t) ∧
         t.started = items.map Job.id ∧ t.queue = [] ∧ t.running = []) := by
  constructor
  · intro st herr
    constructor
    · by_contra hno
      push_neg at hno
      have hok : ∀ j ∈ items, j.ok = true := by
        intro j hj
        have := hno j hj
        cases hjo : j.ok with
        | false => exact absurd hjo this
        | true => rfl
      obtain ⟨t, hrun, _, _, _⟩ :=
        runLoop_ok c hc (totalDur items + 1) ⟨items, [], [], 0⟩
          (by simp [totalDur] <;> omega) hdur (by simp) hok (by simp)
      rw [runWithConcurrency] at herr
      rw [herr] at hrun
      exact Except.noConfusion (Option.some.inj hrun)
    · have := (runLoop_any c (totalDur items + 1) ⟨items, [], [], 0⟩
        (.error st) herr (by simp <;> omega) (by simp)).2
      simpa using this
  · intro hok
    obtain ⟨t, hrun, hq, hru, hst⟩ :=
      runLoop_ok c hc (totalDur items + 1) ⟨items, [], [], 0⟩
        (by simp [totalDur] <;> omega) hdur (by simp) hok (by simp)
    exact ⟨t, hrun, by simpa using hst, hq, hru⟩

/-- C5 witness: the abort analysis at a concrete failing run. -/
theorem runWithConcurrency_failure_aborts_witness :
    (∃ j ∈ ([⟨1, 1, false⟩, ⟨2, 2, true⟩] : List Job), j.ok = false) ∧
    (⟨[⟨2, 2, true⟩], [], [1], 1⟩ : SchedState).started ++
        (⟨[⟨2, 2, true⟩], [], [1], 1⟩ : SchedState).queue.map Job.id =
      ([⟨1, 1, false⟩, ⟨2, 2, true⟩] : List Job).map Job.id :=
  (runWithConcurrency_failure_aborts [⟨1, 1, false⟩, ⟨2, 2, true⟩] 1
    (by decide) (by decide)).1 ⟨[⟨2, 2, true⟩], [], [1], 1⟩ rfl

end CatalogListPro

namespace CatalogListPro

/-! ## More upsertAll lemmas (for pull idempotence) -/

theorem upsertAll_lookup_other {α : Type} (key : α → String) :
    ∀ (rows : List α) (l : List α) (k : String), k ∉ rows.map key →
      lookupKeyed key k (upsertAll key rows l) = lookupKeyed key k l := by
  intro rows
  induction rows with
  | nil => intro l k _; rfl
  | cons r rs ih =>
    intro l k hk
    have hkr : k ≠ key r := fun h => hk (by rw [h]; simp)
    have hkrs : k ∉ rs.map key := fun h => hk (by simp [h])
    show lookupKeyed key k (upsertAll key rs (putKeyed key r l)) = _
    rw [ih _ k hkrs, lookupKeyed_putKeyed_ne key r l hkr]

theorem upsertAll_lookup_self {α : Type} (key : α → String) :
    ∀ (rows : List α) (l : List α), (rows.map key).Nodup →
      ∀ rr ∈ rows, lookupKeyed key (key rr) (upsertAll key rows l) = some rr := by
  intro rows
  induction rows with
  | nil => intro l _ rr hrr; simp at hrr
  | cons r rs ih =>
    intro l hnd rr hrr
    rw [List.map_cons, List.nodup_cons] at hnd
    rcases List.mem_cons.mp hrr with rfl | hrr'
    · show lookupKeyed key (key rr) (upsertAll key rs (putKeyed key rr l)) = some rr
      rw [upsertAll_lookup_other key rs _ _ hnd.1]
      exact lookupKeyed_putKeyed_self key rr l
    · exact ih _ hnd.2 rr hrr'

theorem upsertAll_nodup {α : Type} (key : α → String) :
    ∀ (rows : List α) (l : List α), (l.map key).Nodup →
      ((upsertAll key rows l).map key).Nodup := by
  intro rows
  induction rows with
  | nil => intro l h; exact h
  | cons r rs ih =>
    intro l h
    exact ih _ (putKeyed_nodup key r l h)

theorem forall2_trans {α : Type} {R : α → α → Prop}
    (ht : ∀ a b c, R a b → R b c → R a c) :
    ∀ {a b c : List α}, List.Forall₂ R a b → List.Forall₂ R b c →
      List.Forall₂ R a c := by
  intro a
  induction a with
  | nil =>
    intro b c hab hbc
    cases hab
    cases hbc
    exact List.Forall₂.nil
  | cons x xs ih =>
    intro b c hab hbc
    cases hab with
    | cons hxy hxs =>
      cases hbc with
      | cons hyz hys =>
        exact List.Forall₂.cons (ht _ _ _ hxy hyz) (ih hxs hys)

theorem putKeyed_forall2 {α : Type} (key : α → String) {R : α → α → Prop}
    (hrefl : ∀ x, R x x) :
    ∀ (row : α) (l : List α) (q : α),
      lookupKeyed key (key row) l = some q → R row q →
      List.Forall₂ R (putKeyed key row l) l := by
  intro row l
  induction l with
  | nil => intro q hq _; simp [lookupKeyed] at hq
  | cons y ys ih =>
    intro q hq hR
    by_cases hy : key y = key row
    · rw [lookupKeyed_cons_pos key _ y ys hy] at hq
      cases hq
      rw [putKeyed_cons_pos key row y ys hy]
      exact List.Forall₂.cons hR (List.forall₂_same.mpr (fun x _ => hrefl x))
    · rw [lookupKeyed_cons_neg key _ y ys hy] at hq
      rw [putKeyed_cons_neg key row y ys hy]
      exact List.Forall₂.cons (hrefl y) (ih q hq hR)

theorem upsertAll_forall2 {α : Type} (key : α → String) {R : α → α → Prop}
    (hrefl : ∀ x, R x x) (ht : ∀ a b c, R a b → R b c → R a c) :
    ∀ (rows l : List α), (rows.map key).Nodup →
      (∀ rr ∈ rows, ∃ q, lookupKeyed key (key rr) l = some q ∧ R rr q) →
      List.Forall₂ R (upsertAll key rows l) l := by
  intro rows
  induction rows with
  | nil =>
    intro l _ _
    exact List.forall₂_same.mpr (fun x _ => hrefl x)
  | cons r rs ih =>
    intro l hnd hall
    rw [List.map_cons, List.nodup_cons] at hnd
    obtain ⟨q, hq, hR⟩ := hall r (List.mem_cons_self _ _)
    have h1 : List.Forall₂ R (putKeyed key r l) l := putKeyed_forall2 key hrefl r l q hq hR
    have hall' : ∀ rr ∈ rs, ∃ q, lookupKeyed key (key rr) (putKeyed key r l) = some q ∧ R rr q := by
      intro rr hrr
      obtain ⟨q', hq', hR'⟩ := hall rr (List.mem_cons_of_mem _ hrr)
      have hne : key rr ≠ key r := by
        intro h
        exact hnd.1 (by rw [← h]; exact List.mem_map_of_mem _ hrr)
      exact ⟨q', by rw [lookupKeyed_putKeyed_ne key r l hne]; exact hq', hR'⟩
    have h2 : List.Forall₂ R (upsertAll key rs (putKeyed key r l)) (putKeyed key r l) :=
      ih _ hnd.2 hall'
    exact forall2_trans ht h2 h1

/-! ## Sort and filter key lemmas -/

theorem insertSorted_perm {α : Type} (le : α → α → Bool) (x : α) :
    ∀ l : List α, (insertSorted le x l).Perm (x :: l) := by
  intro l
  induction l with
  | nil => simp [insertSorted]
  | cons y ys ih =>
    by_cases h : le x y = true
    · simp [insertSorted, h]
    · rw [insertSorted, if_neg h]
      exact List.Perm.trans (List.Perm.cons y ih) (List.Perm.swap x y ys)

theorem sortRows_perm {α : Type} (le : α → α → Bool) :
    ∀ l : List α, (sortRows le l).Perm l := by
  intro l
  induction l with
  | nil => simp [sortRows]
  | cons x xs ih =>
    have h1 : sortRows le (x :: xs) = insertSorted le x (sortRows le xs) := rfl
    rw [h1]
    exact List.Perm.trans (insertSorted_perm le x (sortRows le xs))
      (List.Perm.cons x ih)

theorem sortRows_filter_keys_nodup {α : Type} (key : α → String) (le : α → α → Bool)
    (p : α → Bool) (l : List α) (hnd : (l.map key).Nodup) :
    ((sortRows le (l.filter p)).map key).Nodup := by
  have h1 : ((l.filter p).map key).Nodup :=
    List.Nodup.sublist (List.Sublist.map key (List.filter_sublist l)) hnd
  exact ((List.Perm.map key (sortRows_perm le (l.filter p))).symm).nodup h1

theorem filters_append_keys_nodup {α : Type} (key : α → String) (l : List α)
    (p q : α → Bool) (hnd : (l.map key).Nodup)
    (hdisj : ∀ x ∈ l, ¬(p x = true ∧ q x = true)) :
    ((l.filter p ++ l.filter q).map key).Nodup := by
  rw [List.map_append, List.nodup_append]
  refine ⟨List.Nodup.sublist (List.Sublist.map key (List.filter_sublist l)) hnd,
    List.Nodup.sublist (List.Sublist.map key (List.filter_sublist l)) hnd, ?_⟩
  intro a ha hb
  rcases List.mem_map.mp ha with ⟨x, hx, rfl⟩
  rcases List.mem_map.mp hb with ⟨y, hy, hxy⟩
  have hxl : x ∈ l := List.mem_of_mem_filter hx
  have hyl : y ∈ l := List.mem_of_mem_filter hy
  have hxe : y = x := List.inj_on_of_nodup_map hnd hyl hxl hxy
  have hpx : p x = true := List.of_mem_filter hx
  have hqy : q y = true := List.of_mem_filter hy
  exact hdisj x hxl ⟨hpx, hxe ▸ hqy⟩

end CatalogListPro

namespace CatalogListPro

/-! ## Stage equation lemmas (success paths) -/

theorem lotRowsFor_nil (r : Remote) : lotRowsFor r [] = [] := by
  unfold lotRowsFor
  have h : r.lots.filter
      (fun l => ((([] : List Sale)).map Sale.id).contains l.sale_id) = [] := by
    rw [List.filter_eq_nil_iff]
    intro a _
    simp
  rw [h]
  rfl

theorem saleContactRows_nil (r : Remote) : saleContactRows r [] = [] := by
  unfold saleContactRows
  rw [List.filter_eq_nil_iff]
  intro c _
  cases h : c.sale_id <;> simp [h]

theorem saleDocumentRows_nil (r : Remote) : saleDocumentRows r [] = [] := by
  unfold saleDocumentRows
  rw [List.filter_eq_nil_iff]
  intro d _
  cases h : d.sale_id <;> simp [h]

theorem primaryPhotoRows_nil (r : Remote) : primaryPhotoRows r [] = [] := by
  unfold primaryPhotoRows
  rw [List.filter_eq_nil_iff]
  intro p _
  simp

theorem remainingPhotoRows_nil (r : Remote) : remainingPhotoRows r [] = [] := by
  unfold remainingPhotoRows
  rw [List.filter_eq_nil_iff]
  intro p _
  simp

theorem syncCompany_ok_eq (r : Remote) (cid : String) (s : OfflineStore)
    (comp : Company) (h1 : r.companyFetchFails = false)
    (hc : r.companies.find? (fun c => c.id == cid) = some comp) :
    syncCompany r cid s =
      .ok ({ s with companies := putKeyed Company.id comp s.companies }, comp) := by
  simp [syncCompany, h1, hc]

theorem syncActiveSales_ok_eq (r : Remote) (cid : String) (s : OfflineStore)
    (h : r.salesFetchFails = false) :
    syncActiveSales r cid s =
      .ok ({ s with sales := upsertAll Sale.id (activeSaleRows r cid) s.sales },
        activeSaleRows r cid) := by
  simp [syncActiveSales, h]

theorem syncLots_ok_eq (r : Remote) (sales : List Sale) (s : OfflineStore)
    (h : r.lotsFetchFails = false) :
    syncLots r sales s =
      .ok ({ s with lots := upsertAll Lot.id (lotRowsFor r sales) s.lots },
        lotRowsFor r sales) := by
  by_cases he : sales.isEmpty = true
  · have hnil : sales = [] := List.isEmpty_iff.mp he
    subst hnil
    rw [lotRowsFor_nil]
    rfl
  · simp [syncLots, he, h]

theorem syncContacts_eq (r : Remote) (cid : String) (sales : List Sale)
    (s : OfflineStore) (h1 : r.companyContactsFetchFails = false)
    (h2 : r.saleContactsFetchFails = false) :
    syncContacts r cid sales s =
      { s with
          contacts :=
            upsertAll Contact.id (saleContactRows r sales)
              (upsertAll Contact.id (companyContactRows r cid) s.contacts) } := by
  by_cases he : sales.isEmpty = true
  · have hnil : sales = [] := List.isEmpty_iff.mp he
    subst hnil
    rw [saleContactRows_nil]
    simp [syncContacts, h1, upsertAll]
  · simp [syncContacts, h1, h2, he]

theorem syncDocuments_eq (r : Remote) (cid : String) (sales : List Sale)
    (s : OfflineStore) (h1 : r.companyDocumentsFetchFails = false)
    (h2 : r.saleDocumentsFetchFails = false) :
    syncDocuments r cid sales s =
      { s with
          documents :=
            upsertAll Document.id (saleDocumentRows r sales)
              (upsertAll Document.id (companyDocumentRows r cid) s.documents) } := by
  by_cases he : sales.isEmpty = true
  · have hnil : sales = [] := List.isEmpty_iff.mp he
    subst hnil
    rw [saleDocumentRows_nil]
    simp [syncDocuments, h1, upsertAll]
  · simp [syncDocuments, h1, h2, he]

theorem syncPrimaryImages_eq (r : Remote) (lots : List Lot) (s : OfflineStore)
    (h : r.primaryPhotosFetchFails = false) :
    syncPrimaryImages r lots s = photoSync r (primaryPhotoRows r lots) s := by
  by_cases he : lots.isEmpty = true
  · have hnil : lots = [] := List.isEmpty_iff.mp he
    subst hnil
    rw [primaryPhotoRows_nil]
    simp [syncPrimaryImages, photoSync]
  · simp [syncPrimaryImages, he, h]

theorem syncRemainingImages_eq (r : Remote) (lots : List Lot) (s : OfflineStore)
    (h : r.remainingPhotosFetchFails = false) :
    syncRemainingImages r lots s = photoSync r (remainingPhotoRows r lots) s := by
  by_cases he : lots.isEmpty = true
  · have hnil : lots = [] := List.isEmpty_iff.mp he
    subst hnil
    rw [remainingPhotoRows_nil]
    simp [syncRemainingImages, photoSync]
  · simp [syncRemainingImages, he, h]

theorem syncPhotoOne_eq_pair (r : Remote) (p : RemotePhoto) (s : OfflineStore) :
    syncPhotoOne r p s =
      { s with photos := (photoPairStep r (s.photos, s.photoBlobs) p).1,
               photoBlobs := (photoPairStep r (s.photos, s.photoBlobs) p).2 } := by
  unfold syncPhotoOne photoPairStep
  cases hb : lookupKeyed PhotoBlobRow.id p.id s.photoBlobs with
  | some b => simp [hb]
  | none =>
    cases hd : storageDownload r p.file_path with
    | some bytes => simp [hb, hd]
    | none => simp [hb, hd]

theorem photoSync_eq_pair (r : Remote) :
    ∀ (ps : List RemotePhoto) (s : OfflineStore),
      photoSync r ps s =
        { s with photos := (photoPairFold r ps (s.photos, s.photoBlobs)).1,
                 photoBlobs := (photoPairFold r ps (s.photos, s.photoBlobs)).2 } := by
  intro ps
  induction ps with
  | nil => intro s; rfl
  | cons p rest ih =>
    intro s
    have h1 : photoSync r (p :: rest) s = photoSync r rest (syncPhotoOne r p s) := rfl
    rw [h1, ih, syncPhotoOne_eq_pair]
    rfl

theorem photoPairFold_append (r : Remote) (a b : List RemotePhoto)
    (pb : List Photo × List PhotoBlobRow) :
    photoPairFold r (a ++ b) pb = photoPairFold r b (photoPairFold r a pb) := by
  simp [photoPairFold, List.foldl_append]

end CatalogListPro

namespace CatalogListPro

/-! ## Photo-pair fold lemmas -/

theorem performInitialSync_success_eq (r : Remote) (cid : String) (now : Nat)
    (s0 s1 : OfflineStore) (comp : Company) (s2 : OfflineStore) (sales : List Sale)
    (s3 : OfflineStore) (lots : List Lot)
    (h1 : syncCompany r cid s0 = .ok (s1, comp))
    (h2 : syncActiveSales r cid s1 = .ok (s2, sales))
    (h3 : syncLots r sales s2 = .ok (s3, lots)) :
    performInitialSync false r cid now s0 =
      ⟨setLastSyncTime now
        (syncRemainingImages r lots
          (syncDocuments r cid sales
            (syncPrimaryImages r lots (syncContacts r cid sales s3)))),
       [pr "Syncing company" 1, pr "Syncing sales" 2, pr "Syncing lots" 3,
        pr "Syncing contacts" 4, pr "Syncing primary images" 5,
        pr "Syncing documents" 6, pr "Syncing remaining images" 7,
        pr "Complete" 7], false⟩ := by
  simp [performInitialSync, h1, h2, h3]

theorem photoPairStep_blob_mono (r : Remote) (pb : List Photo × List PhotoBlobRow)
    (p : RemotePhoto) (k : String)
    (h : (lookupKeyed PhotoBlobRow.id k pb.2).isSome = true) :
    (lookupKeyed PhotoBlobRow.id k (photoPairStep r pb p).2).isSome = true := by
  unfold photoPairStep
  cases hb : lookupKeyed PhotoBlobRow.id p.id pb.2 with
  | some b => simpa using h
  | none =>
    cases hd : storageDownload r p.file_path with
    | some bytes =>
      by_cases hk : k = p.id
      · exfalso
        rw [hk, hb] at h
        simp at h
      · have hlk := lookupKeyed_putKeyed_ne PhotoBlobRow.id
          (⟨p.id, bytes⟩ : PhotoBlobRow) pb.2 hk
        simp only []
        rw [hlk]
        exact h
    | none => simpa using h

theorem photoPairFold_blob_mono (r : Remote) :
    ∀ (ps : List RemotePhoto) (pb : List Photo × List PhotoBlobRow) (k : String),
      (lookupKeyed PhotoBlobRow.id k pb.2).isSome = true →
      (lookupKeyed PhotoBlobRow.id k (photoPairFold r ps pb).2).isSome = true := by
  intro ps
  induction ps with
  | nil => intro pb k h; exact h
  | cons q rest ih =>
    intro pb k h
    exact ih (photoPairStep r pb q) k (photoPairStep_blob_mono r pb q k h)

theorem photoPairStep_blob_self (r : Remote) (pb : List Photo × List PhotoBlobRow)
    (p : RemotePhoto) :
    (lookupKeyed PhotoBlobRow.id p.id (photoPairStep r pb p).2).isSome = true ∨
    storageDownload r p.file_path = none := by
  unfold photoPairStep
  cases hb : lookupKeyed PhotoBlobRow.id p.id pb.2 with
  | some b => left; simp [hb]
  | none =>
    cases hd : storageDownload r p.file_path with
    | none => right; rfl
    | some bytes =>
      left
      have := lookupKeyed_putKeyed_self PhotoBlobRow.id
        (⟨p.id, bytes⟩ : PhotoBlobRow) pb.2
      simp [this]

theorem photoPairFold_blob_after (r : Remote) :
    ∀ (ps : List RemotePhoto) (pb : List Photo × List PhotoBlobRow),
      ∀ p ∈ ps,
        (lookupKeyed PhotoBlobRow.id p.id (photoPairFold r ps pb).2).isSome = true ∨
        storageDownload r p.file_path = none := by
  intro ps
  induction ps with
  | nil => intro pb p hp; simp at hp
  | cons q rest ih =>
    intro pb p hp
    rcases List.mem_cons.mp hp with rfl | hp'
    · rcases photoPairStep_blob_self r pb p with h | h
      · exact Or.inl (photoPairFold_blob_mono r rest (photoPairStep r pb p) p.id h)
      · exact Or.inr h
    · exact ih (photoPairStep r pb q) p hp'

theorem photoPairStep_skip (r : Remote) (pb : List Photo × List PhotoBlobRow)
    (p : RemotePhoto)
    (h : (lookupKeyed PhotoBlobRow.id p.id pb.2).isSome = true ∨
       storageDownload r p.file_path = none) :
    photoPairStep r pb p = (putKeyed Photo.id (photoOfRemote p false) pb.1, pb.2) := by
  unfold photoPairStep
  cases hb : lookupKeyed PhotoBlobRow.id p.id pb.2 with
  | some b => simp
  | none =>
    rcases h with hs | hd
    · rw [hb] at hs
      simp at hs
    · rw [hd]

theorem photoPairFold_skip (r : Remote) :
    ∀ (ps : List RemotePhoto) (pb : List Photo × List PhotoBlobRow),
      (∀ p ∈ ps, (lookupKeyed PhotoBlobRow.id p.id pb.2).isSome = true ∨
         storageDownload r p.file_path = none) →
      photoPairFold r ps pb =
        (upsertAll Photo.id (ps.map (fun p => photoOfRemote p false)) pb.1, pb.2) := by
  intro ps
  induction ps with
  | nil => intro pb _; rfl
  | cons q rest ih =>
    intro pb hall
    have hstep := photoPairStep_skip r pb q (hall q (List.mem_cons_self _ _))
    have h1 : photoPairFold r (q :: rest) pb =
        photoPairFold r rest (photoPairStep r pb q) := rfl
    rw [h1, hstep,
      ih (putKeyed Photo.id (photoOfRemote q false) pb.1, pb.2)
        (fun p hp => hall p (List.mem_cons_of_mem _ hp))]
    rfl

theorem photoPairStep_photos_other (r : Remote) (pb : List Photo × List PhotoBlobRow)
    (q : RemotePhoto) (k : String) (h : q.id ≠ k) :
    lookupKeyed Photo.id k (photoPairStep r pb q).1 =
      lookupKeyed Photo.id k pb.1 := by
  have hne : k ≠ (photoOfRemote q false).id := fun he => h he.symm
  have hne2 : k ≠ (photoOfRemote q true).id := fun he => h he.symm
  unfold photoPairStep
  cases hb : lookupKeyed PhotoBlobRow.id q.id pb.2 with
  | some b =>
    simp only []
    exact lookupKeyed_putKeyed_ne Photo.id _ _ hne
  | none =>
    cases hd : storageDownload r q.file_path with
    | some bytes =>
      simp only []
      rw [lookupKeyed_putKeyed_ne Photo.id _ _ hne2,
        lookupKeyed_putKeyed_ne Photo.id _ _ hne]
    | none =>
      simp only []
      exact lookupKeyed_putKeyed_ne Photo.id _ _ hne

theorem photoPairFold_photos_other (r : Remote) :
    ∀ (ps : List RemotePhoto) (pb : List Photo × List PhotoBlobRow) (k : String),
      (∀ p ∈ ps, p.id ≠ k) →
      lookupKeyed Photo.id k (photoPairFold r ps pb).1 =
        lookupKeyed Photo.id k pb.1 := by
  intro ps
  induction ps with
  | nil => intro pb k _; rfl
  | cons q rest ih =>
    intro pb k hne
    have h1 : photoPairFold r (q :: rest) pb =
        photoPairFold r rest (photoPairStep r pb q) := rfl
    rw [h1, ih _ k (fun p hp => hne p (List.mem_cons_of_mem _ hp)),
      photoPairStep_photos_other r pb q k (hne q (List.mem_cons_self _ _))]

theorem photoPairStep_photos_self (r : Remote) (pb : List Photo × List PhotoBlobRow)
    (q : RemotePhoto) :
    ∃ b : Bool, lookupKeyed Photo.id q.id (photoPairStep r pb q).1 =
      some (photoOfRemote q b) := by
  unfold photoPairStep
  cases hb : lookupKeyed PhotoBlobRow.id q.id pb.2 with
  | some b =>
    refine ⟨false, ?_⟩
    simp only []
    exact lookupKeyed_putKeyed_self Photo.id (photoOfRemote q false) pb.1
  | none =>
    cases hd : storageDownload r q.file_path with
    | some bytes =>
      refine ⟨true, ?_⟩
      simp only []
      exact lookupKeyed_putKeyed_self Photo.id (photoOfRemote q true) _
    | none =>
      refine ⟨false, ?_⟩
      simp only []
      exact lookupKeyed_putKeyed_self Photo.id (photoOfRemote q false) pb.1

theorem photoPairFold_photos_self (r : Remote) :
    ∀ (ps : List RemotePhoto) (pb : List Photo × List PhotoBlobRow),
      (ps.map RemotePhoto.id).Nodup →
      ∀ p ∈ ps, ∃ b : Bool,
        lookupKeyed Photo.id p.id (photoPairFold r ps pb).1 =
          some (photoOfRemote p b) := by
  intro ps
  induction ps with
  | nil => intro pb _ p hp; simp at hp
  | cons q rest ih =>
    intro pb hnd p hp
    rw [List.map_cons, List.nodup_cons] at hnd
    have h1 : photoPairFold r (q :: rest) pb =
        photoPairFold r rest (photoPairStep r pb q) := rfl
    rcases List.mem_cons.mp hp with rfl | hp'
    · obtain ⟨b, hb⟩ := photoPairStep_photos_self r pb p
      refine ⟨b, ?_⟩
      rw [h1, photoPairFold_photos_other r rest _ p.id
        (fun x hx he => hnd.1 (by rw [← he]; exact List.mem_map_of_mem _ hx))]
      exact hb
    · exact ih (photoPairStep r pb q) hnd.2 p hp'

theorem photoPairStep_photos_nodup (r : Remote) (pb : List Photo × List PhotoBlobRow)
    (q : RemotePhoto) (h : ((pb.1).map Photo.id).Nodup) :
    (((photoPairStep r pb q).1).map Photo.id).Nodup := by
  unfold photoPairStep
  cases hb : lookupKeyed PhotoBlobRow.id q.id pb.2 with
  | some b => exact putKeyed_nodup Photo.id _ _ h
  | none =>
    cases hd : storageDownload r q.file_path with
    | some bytes => exact putKeyed_nodup Photo.id _ _ (putKeyed_nodup Photo.id _ _ h)
    | none => exact putKeyed_nodup Photo.id _ _ h

theorem photoPairFold_photos_nodup (r : Remote) :
    ∀ (ps : List RemotePhoto) (pb : List Photo × List PhotoBlobRow),
      ((pb.1).map Photo.id).Nodup →
      (((photoPairFold r ps pb).1).map Photo.id).Nodup := by
  intro ps
  induction ps with
  | nil => intro pb h; exact h
  | cons q rest ih =>
    intro pb h
    exact ih (photoPairStep r pb q) (photoPairStep_photos_nodup r pb q h)

end CatalogListPro

namespace CatalogListPro

/-- Field-wise characterization of one fully successful pull: each table is
the upsert of that stage's fetched rows, the photos/photoBlobs pair is the
stage-5 and stage-7 fold, the mutation queue and conflict log are untouched,
and `lastSyncTime` is recorded. -/
theorem pull_run_fields (r : Remote) (cid : String) (now : Nat) (s : OfflineStore)
    (comp : Company) (hok : noFetchFailures r)
    (hc : r.companies.find? (fun c => c.id == cid) = some comp) :
    (performInitialSync false r cid now s).threw = false ∧
    (performInitialSync false r cid now s).store.companies =
      putKeyed Company.id comp s.companies ∧
    (performInitialSync false r cid now s).store.sales =
      upsertAll Sale.id (activeSaleRows r cid) s.sales ∧
    (performInitialSync false r cid now s).store.lots =
      upsertAll Lot.id (lotRowsFor r (activeSaleRows r cid)) s.lots ∧
    (performInitialSync false r cid now s).store.contacts =
      upsertAll Contact.id (saleContactRows r (activeSaleRows r cid))
        (upsertAll Contact.id (companyContactRows r cid) s.contacts) ∧
    (performInitialSync false r cid now s).store.documents =
      upsertAll Document.id (saleDocumentRows r (activeSaleRows r cid))
        (upsertAll Document.id (companyDocumentRows r cid) s.documents) ∧
    (performInitialSync false r cid now s).store.photos =
      (photoPairFold r (pulledPhotoRows r cid) (s.photos, s.photoBlobs)).1 ∧
    (performInitialSync false r cid now s).store.photoBlobs =
      (photoPairFold r (pulledPhotoRows r cid) (s.photos, s.photoBlobs)).2 ∧
    (performInitialSync false r cid now s).store.pendingSync = s.pendingSync ∧
    (performInitialSync false r cid now s).store.conflicts = s.conflicts ∧
    (performInitialSync false r cid now s).store.lastSyncTime = some now := by
  obtain ⟨h1, h2, h3, h4, h5, h6, h7, h8, h9⟩ := hok
  have e1 := syncCompany_ok_eq r cid s comp h1 hc
  have e2 := syncActiveSales_ok_eq r cid
    ({ s with companies := putKeyed Company.id comp s.companies }) h2
  have e3 := syncLots_ok_eq r (activeSaleRows r cid)
    ({ { s with companies := putKeyed Company.id comp s.companies } with
        sales := upsertAll Sale.id (activeSaleRows r cid)
          ({ s with companies := putKeyed Company.id comp s.companies }).sales }) h3
  have heq := performInitialSync_success_eq r cid now s _ comp _ _ _ _ e1 e2 e3
  have hstore : (performInitialSync false r cid now s).store =
      { s with
          companies := putKeyed Company.id comp s.companies,
          sales := upsertAll Sale.id (activeSaleRows r cid) s.sales,
          lots := upsertAll Lot.id (lotRowsFor r (activeSaleRows r cid)) s.lots,
          contacts := upsertAll Contact.id (saleContactRows r (activeSaleRows r cid))
            (upsertAll Contact.id (companyContactRows r cid) s.contacts),
          documents := upsertAll Document.id (saleDocumentRows r (activeSaleRows r cid))
            (upsertAll Document.id (companyDocumentRows r cid) s.documents),
          photos := (photoPairFold r (pulledPhotoRows r cid) (s.photos, s.photoBlobs)).1,
          photoBlobs := (photoPairFold r (pulledPhotoRows r cid) (s.photos, s.photoBlobs)).2,
          lastSyncTime := some now } := by
    rw [heq]
    rw [syncContacts_eq r cid (activeSaleRows r cid) _ h4 h5]
    rw [syncPrimaryImages_eq r (lotRowsFor r (activeSaleRows r cid)) _ h6]
    simp only [photoSync_eq_pair]
    rw [syncDocuments_eq r cid (activeSaleRows r cid) _ h7 h8]
    rw [syncRemainingImages_eq r (lotRowsFor r (activeSaleRows r cid)) _ h9]
    simp only [photoSync_eq_pair]
    rw [show pulledPhotoRows r cid =
        primaryPhotoRows r (lotRowsFor r (activeSaleRows r cid)) ++
          remainingPhotoRows r (lotRowsFor r (activeSaleRows r cid)) from rfl,
      photoPairFold_append]
    rfl
  refine ⟨?_, ?_, ?_, ?_, ?_, ?_, ?_, ?_, ?_, ?_, ?_⟩
  · rw [heq]
  · rw [hstore]
  · rw [hstore]
  · rw [hstore]
  · rw [hstore]
  · rw [hstore]
  · rw [hstore]
  · rw [hstore]
  · rw [hstore]
  · rw [hstore]
  · rw [hstore]

end CatalogListPro

namespace CatalogListPro

/-! ## C2: pulling twice (corrected)

A second successful pull from an unchanged remote leaves every table, the
blob store, the mutation queue and the conflict log exactly as the first
run left them and advances `lastSyncTime` — except the `photos` table: the
second run re-upserts every pulled photo row with `synced := false` and,
finding the blob already cached, never restores the flag, so the pulled
rows come out identical to the first snapshot in every field but `synced`,
which is reset to `false`. -/

/-- C2 counterexample: in a one-company/one-sale/one-lot/one-primary-photo
world with the blob available in storage, both pulls succeed, yet the
second run's `photos` table differs from the first run's (the `synced`
flag of the pulled row flips back to `false`), so the snapshots are not
identical. -/
theorem pull_twice_photos_change_cx :
    (performInitialSync false
        ⟨[⟨"c1", "Acme", "active"⟩], [⟨"s1", "c1", "upcoming", 10⟩],
         [⟨"l1", "s1", 1⟩], [⟨"p1", "l1", "f1", true, 5⟩], [], [], [("f1", 7)],
         false, false, false, false, false, false, false, false, false, []⟩
        "c1" 100 ⟨[], [], [], [], [], [], [], [], [], none⟩).threw = false ∧
    (secondPull
        ⟨[⟨"c1", "Acme", "active"⟩], [⟨"s1", "c1", "upcoming", 10⟩],
         [⟨"l1", "s1", 1⟩], [⟨"p1", "l1", "f1", true, 5⟩], [], [], [("f1", 7)],
         false, false, false, false, false, false, false, false, false, []⟩
        "c1" 100 200 ⟨[], [], [], [], [], [], [], [], [], none⟩).threw = false ∧
    ¬((secondPull
        ⟨[⟨"c1", "Acme", "active"⟩], [⟨"s1", "c1", "upcoming", 10⟩],
         [⟨"l1", "s1", 1⟩], [⟨"p1", "l1", "f1", true, 5⟩], [], [], [("f1", 7)],
         false, false, false, false, false, false, false, false, false, []⟩
        "c1" 100 200 ⟨[], [], [], [], [], [], [], [], [], none⟩).store.photos =
      (performInitialSync false
        ⟨[⟨"c1", "Acme", "active"⟩], [⟨"s1", "c1", "upcoming", 10⟩],
         [⟨"l1", "s1", 1⟩], [⟨"p1", "l1", "f1", true, 5⟩], [], [], [("f1", 7)],
         false, false, false, false, false, false, false, false, false, []⟩
        "c1" 100 ⟨[], [], [], [], [], [], [], [], [], none⟩).store.photos) := by
  decide

end CatalogListPro

namespace CatalogListPro

/-- C2: two successful pulls in succession from an unchanged remote (with
well-keyed remote tables) leave the companies, sales, lots, contacts,
documents, photo blobs, mutation queue and conflict log exactly as the
first run left them, and record the second run's `lastSyncTime`; the
`photos` table keeps the same rows in the same order with every field
except `synced` unchanged, but the second run resets `synced` to `false`
on every pulled photo row. -/
theorem pull_twice_snapshot_amended (r : Remote) (cid : String) (now1 now2 : Nat)
    (s0 : OfflineStore) (comp : Company)
    (hok : noFetchFailures r)
    (hc : r.companies.find? (fun c => c.id == cid) = some comp)
    (hsales : (r.sales.map Sale.id).Nodup)
    (hlots : (r.lots.map Lot.id).Nodup)
    (hcontacts : (r.contacts.map Contact.id).Nodup)
    (hdocs : (r.documents.map Document.id).Nodup)
    (hphotos : (r.photos.map RemotePhoto.id).Nodup) :
    (performInitialSync false r cid now1 s0).threw = false ∧
    (secondPull r cid now1 now2 s0).threw = false ∧
    (secondPull r cid now1 now2 s0).store.companies =
      (performInitialSync false r cid now1 s0).store.companies ∧
    (secondPull r cid now1 now2 s0).store.sales =
      (performInitialSync false r cid now1 s0).store.sales ∧
    (secondPull r cid now1 now2 s0).store.lots =
      (performInitialSync false r cid now1 s0).store.lots ∧
    (secondPull r cid now1 now2 s0).store.contacts =
      (performInitialSync false r cid now1 s0).store.contacts ∧
    (secondPull r cid now1 now2 s0).store.documents =
      (performInitialSync false r cid now1 s0).store.documents ∧
    (secondPull r cid now1 now2 s0).store.photoBlobs =
      (performInitialSync false r cid now1 s0).store.photoBlobs ∧
    (secondPull r cid now1 now2 s0).store.pendingSync =
      (performInitialSync false r cid now1 s0).store.pendingSync ∧
    (secondPull r cid now1 now2 s0).store.conflicts =
      (performInitialSync false r cid now1 s0).store.conflicts ∧
    List.Forall₂ photoEqExceptSynced (secondPull r cid now1 now2 s0).store.photos
      (performInitialSync false r cid now1 s0).store.photos ∧
    (∀ p ∈ pulledPhotoRows r cid,
      lookupKeyed Photo.id p.id (secondPull r cid now1 now2 s0).store.photos =
        some (photoOfRemote p false)) ∧
    (secondPull r cid now1 now2 s0).store.lastSyncTime = some now2 := by
  obtain ⟨t1, c1, sa1, lo1, co1, do1, ph1, pb1, pe1, cf1, ls1⟩ :=
    pull_run_fields r cid now1 s0 comp hok hc
  obtain ⟨t2, c2, sa2, lo2, co2, do2, ph2, pb2, pe2, cf2, ls2⟩ :=
    pull_run_fields r cid now2 (performInitialSync false r cid now1 s0).store
      comp hok hc
  have hSR : ((activeSaleRows r cid).map Sale.id).Nodup :=
    sortRows_filter_keys_nodup Sale.id
      (fun a b => decide (b.start_date ≤ a.start_date))
      (fun sl =>
        sl.company_id == cid && (sl.status == "upcoming" || sl.status == "active"))
      r.sales hsales
  have hLR : ((lotRowsFor r (activeSaleRows r cid)).map Lot.id).Nodup :=
    sortRows_filter_keys_nodup Lot.id
      (fun a b => decide (a.lot_number ≤ b.lot_number))
      (fun l => (((activeSaleRows r cid)).map Sale.id).contains l.sale_id)
      r.lots hlots
  have hdisjC : ∀ x ∈ r.contacts,
      ¬((x.company_id == cid && x.sale_id.isNone) = true ∧
        (match x.sale_id with
         | some sid => (((activeSaleRows r cid)).map Sale.id).contains sid
         | none => false) = true) := by
    intro x _ hx
    cases hsid : x.sale_id with
    | none =>
      have hq := hx.2
      simp [hsid] at hq
    | some sid =>
      have hp := hx.1
      simp [hsid] at hp
  have hCo :
      (((companyContactRows r cid ++
          saleContactRows r (activeSaleRows r cid))).map Contact.id).Nodup :=
    filters_append_keys_nodup Contact.id r.contacts
      (fun c => c.company_id == cid && c.sale_id.isNone)
      (fun c =>
        match c.sale_id with
        | some sid => (((activeSaleRows r cid)).map Sale.id).contains sid
        | none => false)
      hcontacts hdisjC
  have hdisjD : ∀ x ∈ r.documents,
      ¬((x.company_id == cid && x.sale_id.isNone) = true ∧
        (match x.sale_id with
         | some sid => (((activeSaleRows r cid)).map Sale.id).contains sid
         | none => false) = true) := by
    intro x _ hx
    cases hsid : x.sale_id with
    | none =>
      have hq := hx.2
      simp [hsid] at hq
    | some sid =>
      have hp := hx.1
      simp [hsid] at hp
  have hDo :
      (((companyDocumentRows r cid ++
          saleDocumentRows r (activeSaleRows r cid))).map Document.id).Nodup :=
    filters_append_keys_nodup Document.id r.documents
      (fun d => d.company_id == cid && d.sale_id.isNone)
      (fun d =>
        match d.sale_id with
        | some sid => (((activeSaleRows r cid)).map Sale.id).contains sid
        | none => false)
      hdocs hdisjD
  have hdisjP : ∀ x ∈ r.photos,
      ¬(((((lotRowsFor r (activeSaleRows r cid))).map Lot.id).contains x.lot_id &&
          x.is_primary) = true ∧
        (((((lotRowsFor r (activeSaleRows r cid))).map Lot.id).contains x.lot_id &&
          !x.is_primary) = true)) := by
    intro x _ hx
    cases hb : x.is_primary with
    | false =>
      have hp := hx.1
      simp [hb] at hp
    | true =>
      have hq := hx.2
      simp [hb] at hq
  have hP : ((pulledPhotoRows r cid).map RemotePhoto.id).Nodup :=
    filters_append_keys_nodup RemotePhoto.id r.photos
      (fun p =>
        (((lotRowsFor r (activeSaleRows r cid))).map Lot.id).contains p.lot_id &&
          p.is_primary)
      (fun p =>
        (((lotRowsFor r (activeSaleRows r cid))).map Lot.id).contains p.lot_id &&
          !p.is_primary)
      hphotos hdisjP
  have hRows :
      (((pulledPhotoRows r cid).map (fun p => photoOfRemote p false)).map
        Photo.id).Nodup := by
    rw [List.map_map]
    exact hP
  have hfold2 :
      photoPairFold r (pulledPhotoRows r cid)
          ((performInitialSync false r cid now1 s0).store.photos,
           (performInitialSync false r cid now1 s0).store.photoBlobs) =
        (upsertAll Photo.id
            ((pulledPhotoRows r cid).map (fun p => photoOfRemote p false))
            (performInitialSync false r cid now1 s0).store.photos,
         (performInitialSync false r cid now1 s0).store.photoBlobs) := by
    apply photoPairFold_skip
    intro p hp
    have hb := photoPairFold_blob_after r (pulledPhotoRows r cid)
      (s0.photos, s0.photoBlobs) p hp
    rw [← pb1] at hb
    exact hb
  have hkeyC : ∀ l : List Contact,
      upsertAll Contact.id (saleContactRows r (activeSaleRows r cid))
          (upsertAll Contact.id (companyContactRows r cid) l) =
        upsertAll Contact.id
          (companyContactRows r cid ++ saleContactRows r (activeSaleRows r cid)) l :=
    fun l => (upsertAll_append Contact.id _ _ l).symm
  have hkeyD : ∀ l : List Document,
      upsertAll Document.id (saleDocumentRows r (activeSaleRows r cid))
          (upsertAll Document.id (companyDocumentRows r cid) l) =
        upsertAll Document.id
          (companyDocumentRows r cid ++ saleDocumentRows r (activeSaleRows r cid)) l :=
    fun l => (upsertAll_append Document.id _ _ l).symm
  rw [show secondPull r cid now1 now2 s0 =
      performInitialSync false r cid now2
        (performInitialSync false r cid now1 s0).store from rfl]
  refine ⟨t1, t2, ?_, ?_, ?_, ?_, ?_, ?_, pe2, cf2, ?_, ?_, ls2⟩
  · rw [c2, c1]
    exact putKeyed_putKeyed_same Company.id comp s0.companies
  · rw [sa2, sa1]
    exact upsertAll_idem Sale.id _ _ hSR
  · rw [lo2, lo1]
    exact upsertAll_idem Lot.id _ _ hLR
  · rw [co2, co1, hkeyC, hkeyC]
    exact upsertAll_idem Contact.id _ _ hCo
  · rw [do2, do1, hkeyD, hkeyD]
    exact upsertAll_idem Document.id _ _ hDo
  · rw [pb2, hfold2]
  · rw [ph2, hfold2]
    refine upsertAll_forall2 Photo.id (fun x => ⟨rfl, rfl, rfl, rfl, rfl⟩)
      (fun a b c hab hbc =>
        ⟨hab.1.trans hbc.1, hab.2.1.trans hbc.2.1, hab.2.2.1.trans hbc.2.2.1,
         hab.2.2.2.1.trans hbc.2.2.2.1, hab.2.2.2.2.trans hbc.2.2.2.2⟩)
      _ _ hRows ?_
    intro rr hrr
    obtain ⟨p, hp, rfl⟩ := List.mem_map.mp hrr
    obtain ⟨b, hb⟩ := photoPairFold_photos_self r (pulledPhotoRows r cid)
      (s0.photos, s0.photoBlobs) hP p hp
    refine ⟨photoOfRemote p b, ?_, rfl, rfl, rfl, rfl, rfl⟩
    rw [ph1]
    exact hb
  · intro p hp
    rw [ph2, hfold2]
    exact upsertAll_lookup_self Photo.id _
      (performInitialSync false r cid now1 s0).store.photos hRows
      (photoOfRemote p false) (List.mem_map_of_mem _ hp)

end CatalogListPro

namespace CatalogListPro

/-- C2 witness: the amended two-pull theorem applied at the concrete
one-photo world — the blob store is unchanged by the second run and the
second `lastSyncTime` is recorded. -/
theorem pull_twice_snapshot_amended_witness :
    noFetchFailures
      ⟨[⟨"c1", "Acme", "active"⟩], [⟨"s1", "c1", "upcoming", 10⟩],
       [⟨"l1", "s1", 1⟩], [⟨"p1", "l1", "f1", true, 5⟩], [], [], [("f1", 7)],
       false, false, false, false, false, false, false, false, false, []⟩ ∧
    (secondPull
        ⟨[⟨"c1", "Acme", "active"⟩], [⟨"s1", "c1", "upcoming", 10⟩],
         [⟨"l1", "s1", 1⟩], [⟨"p1", "l1", "f1", true, 5⟩], [], [], [("f1", 7)],
         false, false, false, false, false, false, false, false, false, []⟩
        "c1" 100 200 ⟨[], [], [], [], [], [], [], [], [], none⟩).store.photoBlobs =
      (performInitialSync false
        ⟨[⟨"c1", "Acme", "active"⟩], [⟨"s1", "c1", "upcoming", 10⟩],
         [⟨"l1", "s1", 1⟩], [⟨"p1", "l1", "f1", true, 5⟩], [], [], [("f1", 7)],
         false, false, false, false, false, false, false, false, false, []⟩
        "c1" 100 ⟨[], [], [], [], [], [], [], [], [], none⟩).store.photoBlobs ∧
    (secondPull
        ⟨[⟨"c1", "Acme", "active"⟩], [⟨"s1", "c1", "upcoming", 10⟩],
         [⟨"l1", "s1", 1⟩], [⟨"p1", "l1", "f1", true, 5⟩], [], [], [("f1", 7)],
         false, false, false, false, false, false, false, false, false, []⟩
        "c1" 100 200 ⟨[], [], [], [], [], [], [], [], [], none⟩).store.lastSyncTime =
      some 200 := by
  refine ⟨⟨rfl, rfl, rfl, rfl, rfl, rfl, rfl, rfl, rfl⟩, ?_, ?_⟩
  · exact (pull_twice_snapshot_amended
      ⟨[⟨"c1", "Acme", "active"⟩], [⟨"s1", "c1", "upcoming", 10⟩],
       [⟨"l1", "s1", 1⟩], [⟨"p1", "l1", "f1", true, 5⟩], [], [], [("f1", 7)],
       false, false, false, false, false, false, false, false, false, []⟩
      "c1" 100 200 ⟨[], [], [], [], [], [], [], [], [], none⟩
      ⟨"c1", "Acme", "active"⟩ ⟨rfl, rfl, rfl, rfl, rfl, rfl, rfl, rfl, rfl⟩
      (by decide) (by decide) (by decide) (by decide) (by decide) (by decide)).2.2.2.2.2.2.2.1
  · exact (pull_twice_snapshot_amended
      ⟨[⟨"c1", "Acme", "active"⟩], [⟨"s1", "c1", "upcoming", 10⟩],
       [⟨"l1", "s1", 1⟩], [⟨"p1", "l1", "f1", true, 5⟩], [], [], [("f1", 7)],
       false, false, false, false, false, false, false, false, false, []⟩
      "c1" 100 200 ⟨[], [], [], [], [], [], [], [], [], none⟩
      ⟨"c1", "Acme", "active"⟩ ⟨rfl, rfl, rfl, rfl, rfl, rfl, rfl, rfl, rfl⟩
      (by decide) (by decide) (by decide) (by decide) (by decide) (by decide)).2.2.2.2.2.2.2.2.2.2.2.2

end CatalogListPro
